import Mathlib

/-!
# xscreenfold: a verification development

A shallow embedding of the C sources of xscreenfold (`poller.c`, `fah-control.c`,
`xscreensaver-watch.c`, `main.c`) and theorems about it.

Conventions of the embedding:

* a C `char` is a `Char`, a C string or a region of memory is a `List Char`;
* `unsigned int` values are `Nat`, reduced modulo `UINT_MOD` where the C
  arithmetic could wrap;
* the operating system is explicit state: a socket carries the bytes accepted so
  far and the outcomes of the `send(2)` calls to come, the pipe carries the
  results of the `read(2)` calls to come, and system calls that matter to a
  property are appended to a log;
* a function whose C original can touch memory outside an object returns an
  `Option`, and `none` stands for such an access (or for a loop that ran out of
  fuel); theorems then show that `none` does not arise.
-/

namespace XScreenFold

/-! ## Constants of the platform -/

/-- The terminating byte of a C string. -/
def NUL : Char := Char.ofNat 0

/-- One more than `UINT_MAX`: `unsigned int` has 32 bits on every Linux ABI
(the program needs epoll, so it runs on Linux only). -/
def UINT_MOD : Nat := 2 ^ 32

/-- Value of `ESRCH` in `<errno.h>` on Linux. -/
def ESRCH : Nat := 3

/-- Value of `EAGAIN` (and of `EWOULDBLOCK`) in `<errno.h>` on Linux. -/
def EAGAIN : Nat := 11

/-- Value of `EPROTO` in `<errno.h>` on Linux. -/
def EPROTO : Nat := 71

/-- Value of `ECONNRESET` in `<errno.h>` on Linux. -/
def ECONNRESET : Nat := 104

/-- Value of `SIGTERM` in `<signal.h>`. -/
def SIGTERM : Nat := 15

/-! ## poller.c -/

/-- The state behind a `poller_t`: the epoll object, seen as the list of the
file descriptors in its interest list, and the count of registered clients
(an `unsigned int`). -/
structure poller where
  interest : List Int
  count : Nat
deriving DecidableEq

/-- The result of `poller_new` when `epoll_create1` succeeds. -/
def poller_new : poller :=
  { interest := [], count := 0 }

/-- The function `poller_add(poller, fd, pollable)`: `epoll_ctl(EPOLL_CTL_ADD)`
succeeds when `fd` is a descriptor that is not yet in the interest list. -/
def poller_add (p : poller) (fd : Int) : Bool × poller :=
  if 0 ≤ fd ∧ fd ∉ p.interest then
    (true, { interest := fd :: p.interest, count := (p.count + 1) % UINT_MOD })
  else
    (false, p)

/-- The function `poller_remove(poller, fd)`: `epoll_ctl(EPOLL_CTL_DEL)` fails
when `fd` is not in the interest list, and then the program calls `abort()`,
which is the result `none`. -/
def poller_remove (p : poller) (fd : Int) : Option poller :=
  if fd ∈ p.interest then
    some { interest := p.interest.erase fd, count := (p.count + UINT_MOD - 1) % UINT_MOD }
  else
    none

/-- The whole program state a poll callback can see and change: the poller
(a callback may register and unregister clients) and everything else. -/
structure RunState (σ : Type) where
  poller : poller
  world : σ

/-- A `poller_pollable_t`: the callback, with its cookie folded into the state.
The result `none` stands for a callback that does not return (it aborts). -/
structure poller_pollable_t (σ : Type) where
  cb : RunState σ → Option (Bool × RunState σ)

/-- What one call `epoll_wait(epollfd, &event, 1, -1)` produces: one ready
event, which carries the pollable stored at registration, or an error
(`ready < 0`). -/
inductive epoll_wait_t (σ : Type) where
  | ready (pollable : poller_pollable_t σ)
  | error (errno : Nat)

/-- How a call of `poller_run` ends: it returns a value, or it stays blocked in
`epoll_wait` because no further event ever arrives, or a callback did not
return. -/
inductive run_outcome where
  | returned (ok : Bool)
  | blocked
  | aborted
deriving DecidableEq

/-- The result of `poller_run`: the outcome, the final state, and the callbacks
that were invoked, in the order of invocation, each with what it returned. -/
structure run_result (σ : Type) where
  outcome : run_outcome
  final : RunState σ
  invoked : List (poller_pollable_t σ × Option Bool)

/-- The function `poller_run(poller)`, by recursion on the events that the
successive calls of `epoll_wait` deliver. -/
def poller_run {σ : Type} : List (epoll_wait_t σ) → RunState σ → run_result σ
  | [], s =>
      if s.poller.count ≠ 0 then ⟨.blocked, s, []⟩ else ⟨.returned true, s, []⟩
  | ev :: evs, s =>
      if s.poller.count ≠ 0 then
        match ev with
        | .error _ => ⟨.returned false, s, []⟩
        | .ready pollable =>
            match pollable.cb s with
            | none => ⟨.aborted, s, [(pollable, none)]⟩
            | some (false, s1) => ⟨.returned false, s1, [(pollable, some false)]⟩
            | some (true, s1) =>
                let r := poller_run evs s1
                ⟨r.outcome, r.final, (pollable, some true) :: r.invoked⟩
      else
        ⟨.returned true, s, []⟩

/-! ## C strings and memory -/

/-- The function `strlen(s)` on the object `s`: the index of the first NUL. The
result is `none` when the object holds no NUL, where the C function would read
past its end. -/
def strlen : List Char → Option Nat
  | [] => none
  | c :: cs => if c = NUL then some 0 else (strlen cs).map (· + 1)

/-- The function `strchr(s, c)`: `some (some i)` is the pointer `s + i`,
`some none` the null pointer, and `none` a read past the end of the object. -/
def strchr (c : Char) : List Char → Option (Option Nat)
  | [] => none
  | x :: xs =>
      if x = c then some (some 0)
      else if x = NUL then some none
      else (strchr c xs).map (Option.map (· + 1))

/-- The test `strncmp(s1, s2, n) == 0`: at most `n` bytes are compared and the
comparison stops after a NUL. The result is `none` for a read past the end of
an object. -/
def strncmp_eq : List Char → List Char → Nat → Option Bool
  | _, _, 0 => some true
  | a :: s1, b :: s2, n + 1 =>
      if a ≠ b then some false
      else if a = NUL then some true
      else strncmp_eq s1 s2 n
  | _, _, _ + 1 => none

/-- The object a string literal denotes: its characters and the NUL. -/
def literal (s : String) : List Char :=
  s.toList ++ [NUL]

/-- The assignment `mem[i] = c`; `none` when `i` is outside the object. -/
def mem_store (mem : List Char) (i : Nat) (c : Char) : Option (List Char) :=
  if i < mem.length then some (mem.set i c) else none

/-- Copies `bytes` into `mem` from offset `off` on, as `read(2)` does with the
bytes it returns; `none` when they do not fit into the object. -/
def mem_write (mem : List Char) (off : Nat) (bytes : List Char) : Option (List Char) :=
  if off + bytes.length ≤ mem.length then
    some (mem.take off ++ bytes ++ mem.drop (off + bytes.length))
  else
    none

/-- The call `memmove(mem, mem + src, n)`; `none` when the source range leaves
the object. -/
def memmove_front (mem : List Char) (src n : Nat) : Option (List Char) :=
  if src + n ≤ mem.length then
    some ((mem.drop src).take n ++ mem.drop n)
  else
    none

/-! ## The operating system as the watcher sees it -/

/-- What a `read(2)` on the pipe finds: bytes in the pipe (no bytes at all is
end-of-file), or a failure with its `errno` (would-block is `fail EAGAIN`). -/
inductive ReadResult where
  | data (bytes : List Char)
  | fail (errno : Nat)
deriving DecidableEq

/-- The calls that the properties below speak about, as they are logged. -/
inductive Event where
  | read (fd : Int) (count : Nat)
  | waitpid (pid : Int)
  | kill (pid : Int) (sig : Nat)
  | notify (value : Bool)
  | close (fd : Int)
deriving DecidableEq

/-- The operating system state: `reads` is what the `read(2)` calls to come
will find in the pipe, one entry per call, and once the list is used up the
pipe is empty and its write end still open, so a read would block; `errno` is
the C variable; `log` records the calls made so far, oldest first. -/
structure OS where
  reads : List ReadResult
  errno : Nat
  log : List Event
deriving DecidableEq

/-- The call `read(fd, buf, count)` on the non-blocking pipe: returns `rc` and
the bytes stored, which are never more than `count`; bytes that did not fit
stay in the pipe for the next call. -/
def sys_read (os : OS) (fd : Int) (count : Nat) : Int × List Char × OS :=
  match os.reads with
  | [] =>
      (-1, [], { reads := [], errno := EAGAIN, log := os.log ++ [.read fd count] })
  | .fail e :: rest =>
      (-1, [], { reads := rest, errno := e, log := os.log ++ [.read fd count] })
  | .data bytes :: rest =>
      ((bytes.take count).length, bytes.take count,
        { reads := if bytes.length ≤ count then rest else .data (bytes.drop count) :: rest,
          errno := os.errno, log := os.log ++ [.read fd count] })

/-! ## xscreensaver-watch.c -/

/-- The fields of `struct xscreensaver_watch` that hold data; `buffer` is the
memory of `char buffer[256]`. -/
structure xscreensaver_watch where
  pid : Int
  rfd : Int
  buffer : List Char
deriving DecidableEq

/-- The value `sizeof(watch->buffer)`. -/
def sizeof_buffer : Nat := 256

/-- An `xscreensaver_watch_watcher_t`: the callback, with the state behind its
cookie passed in and out. -/
structure xscreensaver_watch_watcher_t (σ : Type) where
  cb : σ → Bool → Bool × σ

/-- Everything a step of the watcher reads or changes: the watch object, the
operating system, and the state behind the cookie of the client. -/
structure WatchState (σ : Type) where
  watch : xscreensaver_watch
  os : OS
  cookie : σ

/-- The enumeration `xscreensaver_watch_rfd_poll_once_t`. -/
inductive xscreensaver_watch_rfd_poll_once_t where
  | AGAIN
  | WAIT
  | ERROR
deriving DecidableEq

/-- How a part of `xscreensaver_watch_rfd_poll_once` ends: with a `return` of
`XSCREENSAVER_WATCH_RFD_POLL_ONCE_ERROR`, or by going on to the next part with
the current value of `did_work`. -/
inductive Phase (σ : Type) where
  | stop (st : WatchState σ)
  | go (st : WatchState σ) (did_work : Bool)

/-- Lines 125 to 146 of `xscreensaver_watch_rfd_poll_once`: read some data from
the pipe into the buffer. -/
def poll_once_read {σ : Type} (st : WatchState σ) : Option (Phase σ) :=
  match strlen st.watch.buffer with
  | none => none
  | some old_length =>
      let space_remaining := sizeof_buffer - old_length - 1
      if space_remaining ≠ 0 then
        match sys_read st.os st.watch.rfd space_remaining with
        | (rc, bytes, os1) =>
            if rc = 0 then
              some (.stop { st with
                os := { os1 with errno := ESRCH, log := os1.log ++ [.waitpid st.watch.pid] } })
            else if rc > 0 then
              match mem_write st.watch.buffer old_length bytes with
              | none => none
              | some buffer1 =>
                  match mem_store buffer1 (old_length + rc.toNat) NUL with
                  | none => none
                  | some buffer2 =>
                      some (.go { st with
                        watch := { st.watch with buffer := buffer2 }, os := os1 } true)
            else if os1.errno ≠ EAGAIN then
              some (.stop { st with os := os1 })
            else
              some (.go { st with os := os1 } false)
      else
        some (.go st false)

/-- Lines 151 to 158: the choice of `notify` and `value`; `some none` is
`notify == false` and `some (some v)` is `notify == true` with `value == v`. -/
def poll_once_classify (buffer : List Char) : Option (Option Bool) :=
  match strncmp_eq buffer (literal "BLANK ") 6 with
  | none => none
  | some true => some (some true)
  | some false =>
      match strncmp_eq buffer (literal "LOCK ") 5 with
      | none => none
      | some true => some (some true)
      | some false =>
          match strncmp_eq buffer (literal "UNBLANK ") 8 with
          | none => none
          | some true => some (some false)
          | some false => some none

/-- Lines 148 to 166 of `xscreensaver_watch_rfd_poll_once`: eat a line if there
is a complete one. -/
def poll_once_parse {σ : Type} (watcher : xscreensaver_watch_watcher_t σ)
    (st : WatchState σ) (did_work : Bool) : Option (Phase σ) :=
  match strchr '\n' st.watch.buffer with
  | none => none
  | some none => some (.go st did_work)
  | some (some nl) =>
      match poll_once_classify st.watch.buffer with
      | none => none
      | some notify =>
          let called : Bool × WatchState σ :=
            match notify with
            | some value =>
                ((watcher.cb st.cookie value).1,
                  { st with
                    cookie := (watcher.cb st.cookie value).2
                    os := { st.os with log := st.os.log ++ [.notify value] } })
            | none => (true, st)
          if called.1 then
            match strlen (called.2.watch.buffer.drop (nl + 1)) with
            | none => none
            | some rest_length =>
                match memmove_front called.2.watch.buffer (nl + 1) (rest_length + 1) with
                | none => none
                | some buffer1 =>
                    some (.go { called.2 with
                      watch := { called.2.watch with buffer := buffer1 } } true)
          else
            some (.stop called.2)

/-- Lines 168 to 175 of `xscreensaver_watch_rfd_poll_once`: fail when the buffer
is completely full, and otherwise report whether work was done. -/
def poll_once_check {σ : Type} (st : WatchState σ) (did_work : Bool) :
    Option (xscreensaver_watch_rfd_poll_once_t × WatchState σ) :=
  match strlen st.watch.buffer with
  | none => none
  | some length =>
      if length = sizeof_buffer - 1 then
        some (.ERROR, { st with os := { st.os with errno := EPROTO } })
      else
        some (if did_work then .AGAIN else .WAIT, st)

/-- The function `xscreensaver_watch_rfd_poll_once(watch)`. -/
def xscreensaver_watch_rfd_poll_once {σ : Type} (watcher : xscreensaver_watch_watcher_t σ)
    (st : WatchState σ) : Option (xscreensaver_watch_rfd_poll_once_t × WatchState σ) :=
  match poll_once_read st with
  | none => none
  | some (.stop st1) => some (.ERROR, st1)
  | some (.go st1 did_work1) =>
      match poll_once_parse watcher st1 did_work1 with
      | none => none
      | some (.stop st2) => some (.ERROR, st2)
      | some (.go st2 did_work2) => poll_once_check st2 did_work2

/-- The loop `for(;;)` of `xscreensaver_watch_rfd_poll`, cut off after `fuel`
steps: `AGAIN` goes round again, `WAIT` returns `true`, `ERROR` returns
`false`. -/
def rfd_poll_loop {σ : Type} (watcher : xscreensaver_watch_watcher_t σ) :
    Nat → WatchState σ → Option (Bool × WatchState σ)
  | 0, _ => none
  | fuel + 1, st =>
      match xscreensaver_watch_rfd_poll_once watcher st with
      | none => none
      | some (.AGAIN, st1) => rfd_poll_loop watcher fuel st1
      | some (.WAIT, st1) => some (true, st1)
      | some (.ERROR, st1) => some (false, st1)

/-- The number of bytes and of entries in the pending results of `read(2)`. -/
def reads_size : List ReadResult → Nat
  | [] => 0
  | .data bytes :: rest => bytes.length + 1 + reads_size rest
  | .fail _ :: rest => 1 + reads_size rest

/-- The function `xscreensaver_watch_rfd_poll(cookie)`. Every step that asks for
another step either takes something out of the pipe or shortens the buffered
string, so the number of steps is bounded by the fuel given here (theorem
`rfd_poll_total` below). -/
def xscreensaver_watch_rfd_poll {σ : Type} (watcher : xscreensaver_watch_watcher_t σ)
    (st : WatchState σ) : Option (Bool × WatchState σ) :=
  rfd_poll_loop watcher (2 * reads_size st.os.reads + sizeof_buffer + 1) st

/-- The watcher over `n` readiness events of the pipe: the poller calls
`xscreensaver_watch_rfd_poll` once per event and stops at the first call that
returns `false`. -/
def watch_polls {σ : Type} (watcher : xscreensaver_watch_watcher_t σ) :
    Nat → WatchState σ → Option (Bool × WatchState σ)
  | 0, st => some (true, st)
  | n + 1, st =>
      match xscreensaver_watch_rfd_poll watcher st with
      | none => none
      | some (false, st1) => some (false, st1)
      | some (true, st1) => watch_polls watcher n st1

/-- The outcomes of the library and system calls of `xscreensaver_watch_new`:
`malloc` gives the bytes found in the new object where `buffer` lies (or fails),
`open_null` is the result of `open("/dev/null")`, `pipe2` the two ends of
the pipe (or a failure), `fcntl_ok` whether `fcntl` returned 0, and `spawn` the
result of `xscreensaver_watch_spawn`. -/
structure NewEnv where
  malloc : Option (List Char)
  open_null : Int
  pipe2 : Option (Int × Int)
  fcntl_ok : Bool
  spawn : Int

/-- The function `xscreensaver_watch_new(poller, watcher)`: the new object (or
the null pointer) and the poller afterwards. The outer `none` is the `abort()`
of `poller_remove`. -/
def xscreensaver_watch_new (env : NewEnv) (p : poller) :
    Option (Option xscreensaver_watch × poller) :=
  match env.malloc with
  | none => some (none, p)
  | some raw =>
      let buffer := raw.set 0 NUL
      if env.open_null ≥ 0 then
        match env.pipe2 with
        | some (rfd, _) =>
            if env.fcntl_ok then
              match poller_add p rfd with
              | (true, p1) =>
                  if env.spawn ≠ -1 then
                    some (some { pid := env.spawn, rfd := rfd, buffer := buffer }, p1)
                  else
                    (poller_remove p1 rfd).map fun p2 => (none, p2)
              | (false, p1) => some (none, p1)
            else
              some (none, p)
        | none => some (none, p)
      else
        some (none, p)

/-- The function `xscreensaver_watch_delete(watch)`; `none` is the `abort()` of
`poller_remove`. -/
def xscreensaver_watch_delete (watch : Option xscreensaver_watch) (os : OS) (p : poller) :
    Option (OS × poller) :=
  match watch with
  | none => some (os, p)
  | some w =>
      let os1 : OS :=
        if w.pid ≥ 0 then
          { os with log := os.log ++ [.kill w.pid SIGTERM, .waitpid w.pid] }
        else
          os
      (poller_remove p w.rfd).map fun p1 =>
        ({ os1 with log := os1.log ++ [.close w.rfd] }, p1)

/-! ## fah-control.c -/

/-- The connected TCP socket of the control client, as the program sees it:
`sent` is every byte the kernel has accepted so far, in order, and `sends` lists
the outcomes of the `send(2)` calls to come: `none` is a failed call (`rc < 0`),
`some k` a call that accepts `min k remaining` bytes. Once the list is used up
every call accepts all it is given. -/
structure Socket where
  sent : List Char
  sends : List (Option Nat)
deriving DecidableEq

/-- The state behind a `fah_control_t`: `slot_bits` is `none` for the null
pointer and otherwise the array of `slot_bits_words` words. -/
structure fah_control where
  sock : Socket
  slot_bits : Option (List Nat)
  slot_bits_words : Nat
deriving DecidableEq

/-- The constant `fah_control_bits_per_word = sizeof(unsigned int) * CHAR_BIT`. -/
def fah_control_bits_per_word : Nat := 4 * 8

/-- The loop of `fah_control_send_string`, by recursion on the outcomes of the
`send(2)` calls: `while(remaining)` ends with `true` when nothing is left; a
failed call (`rc < 0`) returns `false`; otherwise `string += rc` and
`remaining -= rc`, where `rc` is what the kernel accepted. -/
def fah_control_send_string_loop : List (Option Nat) → List Char → List Char → Bool × Socket
  | sends, sent, [] => (true, ⟨sent, sends⟩)
  | [], sent, c :: cs => (true, ⟨sent ++ c :: cs, []⟩)
  | none :: sends, sent, _ :: _ => (false, ⟨sent, sends⟩)
  | some k :: sends, sent, c :: cs =>
      fah_control_send_string_loop sends (sent ++ (c :: cs).take k) ((c :: cs).drop k)

/-- The function `fah_control_send_string(sock, string)`. -/
def fah_control_send_string (sock : Socket) (string : List Char) : Bool × Socket :=
  fah_control_send_string_loop sock.sends sock.sent string

/-- The result of `fah_control_new` once the socket is connected and registered:
`slot_bits = 0` and `slot_bits_words = 0`. -/
def fah_control_new (sock : Socket) : fah_control :=
  { sock := sock, slot_bits := none, slot_bits_words := 0 }

/-- The function `fah_control_slot_add(fah, slot)`. The flag `realloc_ok` tells
whether `realloc` succeeds, should it be called. `realloc` keeps the old words
and the `memset` zeroes the new ones. -/
def fah_control_slot_add (realloc_ok : Bool) (fah : fah_control) (slot : Nat) :
    Bool × fah_control :=
  let word := slot / fah_control_bits_per_word
  let bit := slot % fah_control_bits_per_word
  if fah.slot_bits_words ≤ word then
    let new_words := (word + 1) % UINT_MOD
    if realloc_ok then
      let new := fah.slot_bits.getD [] ++ List.replicate (new_words - fah.slot_bits_words) 0
      (true, { fah with
        slot_bits := some (new.set word ((new.getD word 0 ||| 1 <<< bit) % UINT_MOD))
        slot_bits_words := new_words })
    else
      (false, fah)
  else
    (true, { fah with
      slot_bits := fah.slot_bits.map fun bits =>
        bits.set word ((bits.getD word 0 ||| 1 <<< bit) % UINT_MOD) })

/-- The text `sprintf(buffer, "%s %u\n", command, slot)` leaves in `buffer`. -/
def sprintf_command (command : List Char) (slot : Nat) : List Char :=
  command ++ [' '] ++ Nat.toDigits 10 slot ++ ['\n']

/-- The inner loop of `fah_control_send` over the bits still to visit of word
number `word`, whose value is `value`. -/
def fah_control_send_bits (command : List Char) (value word : Nat) :
    List Nat → Socket → Bool × Socket
  | [], sock => (true, sock)
  | bit :: bits, sock =>
      if value &&& (1 <<< bit) ≠ 0 then
        let slot := (word * fah_control_bits_per_word + bit) % UINT_MOD
        match fah_control_send_string sock (sprintf_command command slot) with
        | (false, sock1) => (false, sock1)
        | (true, sock1) => fah_control_send_bits command value word bits sock1
      else
        fah_control_send_bits command value word bits sock

/-- The outer loop of `fah_control_send` over the words still to visit. -/
def fah_control_send_words (command : List Char) (slot_bits : List Nat) :
    List Nat → Socket → Bool × Socket
  | [], sock => (true, sock)
  | word :: words, sock =>
      match fah_control_send_bits command (slot_bits.getD word 0) word
          (List.range fah_control_bits_per_word) sock with
      | (false, sock1) => (false, sock1)
      | (true, sock1) => fah_control_send_words command slot_bits words sock1

/-- The function `fah_control_send(fah, run)`. -/
def fah_control_send (fah : fah_control) (run : Bool) : Bool × fah_control :=
  let command := if run then "unpause".toList else "pause".toList
  match fah.slot_bits with
  | some slot_bits =>
      let r := fah_control_send_words command slot_bits (List.range fah.slot_bits_words) fah.sock
      (r.1, { fah with sock := r.2 })
  | none =>
      let r := fah_control_send_string fah.sock (command ++ "\n".toList)
      (r.1, { fah with sock := r.2 })

/-- Adds the slots of a list one after the other, as `add_slots` of `main.c`
does with the parsed arguments, with every `realloc` succeeding. -/
def add_all (fah : fah_control) (slots : List Nat) : fah_control :=
  slots.foldl (fun f slot => (fah_control_slot_add true f slot).2) fah

/-! ## main.c -/

/-- What the cookie of `screen_saver_cb` gives access to, together with the
standard output of the process, as the list of the lines written. -/
structure MainWorld where
  stdout : List String
  fah : fah_control
deriving DecidableEq

/-- The function `screen_saver_cb(cookie, active)`. -/
def screen_saver_cb (cookie : MainWorld) (active : Bool) : Bool × MainWorld :=
  if active then
    let r := fah_control_send cookie.fah true
    (r.1, { stdout := cookie.stdout ++ ["Activating Folding@Home."], fah := r.2 })
  else
    (true, cookie)

/-- The watcher record `main` fills in: `watcher.cb = &screen_saver_cb`. -/
def main_watcher : xscreensaver_watch_watcher_t MainWorld :=
  { cb := screen_saver_cb }

/-! ## Notions used to state the properties -/

/-- The buffer memory `mem` (256 bytes) holds the C string `s`: the bytes of
`s`, none of them NUL, then the terminator, then whatever follows. -/
def Holds (mem s : List Char) : Prop :=
  mem.length = sizeof_buffer ∧ NUL ∉ s ∧ ∃ junk, mem = s ++ NUL :: junk

/-- The values passed to the notification callback, oldest first. -/
def notifications (log : List Event) : List Bool :=
  log.filterMap fun e => match e with
    | .notify value => some value
    | _ => none

/-- The counts requested by the `read(2)` calls, oldest first. -/
def read_requests (log : List Event) : List Nat :=
  log.filterMap fun e => match e with
    | .read _ count => some count
    | _ => none

/-- The meaning of a line of the helper protocol: activation for a line that
starts with `BLANK ` or `LOCK `, deactivation for one that starts with
`UNBLANK `, nothing for any other line. -/
def classify (line : List Char) : Option Bool :=
  if "BLANK ".toList.isPrefixOf line || "LOCK ".toList.isPrefixOf line then some true
  else if "UNBLANK ".toList.isPrefixOf line then some false
  else none

/-- The text made of the given lines, each followed by its newline. -/
def lines_text : List (List Char) → List Char
  | [] => []
  | line :: lines => line ++ '\n' :: lines_text lines

/-- The bytes that the pending results of `read(2)` deliver, in order. -/
def pending : List ReadResult → List Char
  | [] => []
  | .data bytes :: rest => bytes ++ pending rest
  | .fail _ :: rest => pending rest

/-- The pending results of `read(2)` are positive-length reads and would-block
results only. -/
def partial_reads (reads : List ReadResult) : Prop :=
  ∀ r ∈ reads, r = .fail EAGAIN ∨ ∃ bytes, bytes ≠ [] ∧ r = .data bytes

/-- The cookie state after the callback has been called with each of the given
values in turn. -/
def notify_all {σ : Type} (watcher : xscreensaver_watch_watcher_t σ) (cookie : σ)
    (values : List Bool) : σ :=
  values.foldl (fun c v => (watcher.cb c v).2) cookie

/-- The bytes the next `read(2)` stores when it is asked for `count` bytes. -/
def incoming : List ReadResult → Nat → List Char
  | .data bytes :: _, count => bytes.take count
  | _, _ => []

/-- The pending results of `read(2)` after a call that asked for `count`
bytes. -/
def reads_after : List ReadResult → Nat → List ReadResult
  | [], _ => []
  | .fail _ :: rest, _ => rest
  | .data bytes :: rest, count =>
      if bytes.length ≤ count then rest else .data (bytes.drop count) :: rest

/-- The value of `errno` after the next `read(2)`, given its value before. -/
def errno_after : List ReadResult → Nat → Nat
  | [], _ => EAGAIN
  | .fail e :: _, _ => e
  | .data _ :: _, old => old

/-- A line of the helper as the properties take it: no newline and no NUL
inside, at most 254 bytes. -/
def good_line (line : List Char) : Prop :=
  '\n' ∉ line ∧ NUL ∉ line ∧ line.length ≤ 254

/-- The measure that bounds the steps of the loop of
`xscreensaver_watch_rfd_poll`. -/
def poll_measure {σ : Type} (st : WatchState σ) : Nat :=
  2 * reads_size st.os.reads + (strlen st.watch.buffer).getD 0

/-- The state of a watcher that is being fed the text of some lines: the
buffered string followed by the bytes still in the pipe is the text of the lines
not yet eaten, whose meanings all satisfy `A`, `values` is what the callback has
received followed by the meaning of those lines, `final` is the cookie state
after all of them, and the cookie state satisfies `P`. -/
def LinesInv {σ : Type} (watcher : xscreensaver_watch_watcher_t σ) (P : σ → Prop)
    (A : Bool → Prop) (values : List Bool) (final : σ) (st : WatchState σ) : Prop :=
  ∃ s todo, Holds st.watch.buffer s ∧ s.length < 255 ∧ partial_reads st.os.reads ∧
    s ++ pending st.os.reads = lines_text todo ∧
    (∀ l ∈ todo, good_line l ∧ ∀ v, classify l = some v → A v) ∧
    notifications st.os.log ++ todo.filterMap classify = values ∧
    notify_all watcher st.cookie (todo.filterMap classify) = final ∧ P st.cookie

/-- The buffered string holds no complete line. -/
def NoLine {σ : Type} (st : WatchState σ) : Prop :=
  ∀ s, Holds st.watch.buffer s → '\n' ∉ s

/-- The bytes of the commands for the given slots, one command after the
other. -/
def slot_commands (command : List Char) (slots : List Nat) : List Char :=
  (slots.map (sprintf_command command)).flatten

/-- Slot `slot` is in the set that the control client holds: its bit is set in
its word of `slot_bits`. -/
def slot_selected (fah : fah_control) (slot : Nat) : Bool :=
  ((fah.slot_bits.getD []).getD (slot / fah_control_bits_per_word) 0).testBit
    (slot % fah_control_bits_per_word)

/-- The state of a watcher that is being fed a text without any newline: the
buffered string followed by the bytes still in the pipe is the whole text, the
string is shorter than 255 bytes, and the callback has not been called. -/
def OverlongInv {σ : Type} (text : List Char) (cookie : σ) (st : WatchState σ) : Prop :=
  ∃ s, Holds st.watch.buffer s ∧ s.length < 255 ∧ partial_reads st.os.reads ∧
    s ++ pending st.os.reads = text ∧ notifications st.os.log = [] ∧ st.cookie = cookie

/-- The state in which the watcher gives up on a text without any newline:
`errno` is `EPROTO`, the callback has not been called, the buffer holds the
first 255 bytes of the text and the rest is still in the pipe, and the last
thing the watcher did was a `read(2)` for at least one byte. -/
def OverlongEnd {σ : Type} (text : List Char) (cookie : σ) (st : WatchState σ) : Prop :=
  st.os.errno = EPROTO ∧ notifications st.os.log = [] ∧ st.cookie = cookie ∧
    Holds st.watch.buffer (text.take 255) ∧ pending st.os.reads = text.drop 255 ∧
    ∃ earlier fd count, st.os.log = earlier ++ [.read fd count] ∧ 0 < count

/-- The invariant of `char buffer[256]`: the object has its 256 bytes and holds
a NUL-terminated string of at most 255 bytes. -/
def buffer_ok (mem : List Char) : Prop :=
  mem.length = sizeof_buffer ∧ ∃ n, strlen mem = some n ∧ n ≤ sizeof_buffer - 1

/-- The state a part of a step ends in. -/
def Phase.state {σ : Type} : Phase σ → WatchState σ
  | .stop st => st
  | .go st _ => st

/-- The watcher states that can be reached: the state after a successful
`xscreensaver_watch_new` (on memory that has the 256 bytes of the buffer), with
any operating system state and cookie state; the state after a step of
`xscreensaver_watch_rfd_poll_once` that did not return `ERROR`; and a reachable
state after the rest of the program and the outside world have changed the
operating system state and the cookie state. -/
inductive Reachable {σ : Type} (watcher : xscreensaver_watch_watcher_t σ) :
    WatchState σ → Prop where
  | start (env : NewEnv) (p p' : poller) (watch : xscreensaver_watch) (os : OS) (cookie : σ)
      (hraw : ∀ raw, env.malloc = some raw → raw.length = sizeof_buffer)
      (hnew : xscreensaver_watch_new env p = some (some watch, p')) :
      Reachable watcher ⟨watch, os, cookie⟩
  | step (st st' : WatchState σ) (r : xscreensaver_watch_rfd_poll_once_t)
      (h : Reachable watcher st)
      (hstep : xscreensaver_watch_rfd_poll_once watcher st = some (r, st'))
      (hr : r ≠ .ERROR) : Reachable watcher st'
  | world (st : WatchState σ) (os : OS) (cookie : σ) (h : Reachable watcher st) :
      Reachable watcher ⟨st.watch, os, cookie⟩

/-! ## The orchestrator: `fah_control_poll` and `main` -/

/-- Value of `EWOULDBLOCK` in `<errno.h>` on Linux, the same as `EAGAIN`. -/
def EWOULDBLOCK : Nat := 11

/-- Value of `EINVAL` in `<errno.h>` on Linux. -/
def EINVAL : Nat := 22

/-- Value of `EDOM` in `<errno.h>` on Linux. -/
def EDOM : Nat := 33

/-- Value of `EXIT_SUCCESS` in `<stdlib.h>`. -/
def EXIT_SUCCESS : Nat := 0

/-- Value of `EXIT_FAILURE` in `<stdlib.h>`. -/
def EXIT_FAILURE : Nat := 1

/-- The state of the running program as the two poll callbacks of `main` see
it: the watcher with the operating system and the cookie of `screen_saver_cb`
(which holds the control client), and `recvs`, what the `recv(2)` calls to come
on the control socket will find, one entry per call; once the list is used up
nothing is ready, so a call would block. -/
structure MainState where
  watch : WatchState MainWorld
  recvs : List ReadResult

/-- The call `recv(sock, buffer, len, MSG_DONTWAIT)`: returns `rc`, the pending
results and `errno` afterwards. -/
def sys_recv (recvs : List ReadResult) (errno len : Nat) : Int × List ReadResult × Nat :=
  match recvs with
  | [] => (-1, [], EAGAIN)
  | .fail e :: rest => (-1, rest, e)
  | .data bytes :: rest =>
      ((bytes.take len).length,
        if bytes.length ≤ len then rest else .data (bytes.drop len) :: rest, errno)

/-- The function `fah_control_poll(cookie)`. -/
def fah_control_poll (s : MainState) : Bool × MainState :=
  match sys_recv s.recvs s.watch.os.errno 256 with
  | (rc, recvs1, errno1) =>
      if rc > 0 then
        (true, { watch := { s.watch with os := { s.watch.os with errno := errno1 } }
                 recvs := recvs1 })
      else if rc = 0 then
        (false, { watch := { s.watch with os := { s.watch.os with errno := ECONNRESET } }
                  recvs := recvs1 })
      else if errno1 = EAGAIN ∨ errno1 = EWOULDBLOCK then
        (true, { watch := { s.watch with os := { s.watch.os with errno := errno1 } }
                 recvs := recvs1 })
      else
        (false, { watch := { s.watch with os := { s.watch.os with errno := errno1 } }
                  recvs := recvs1 })

/-- The pollable `fah->sock_pollable`, whose callback is `fah_control_poll`. -/
def sock_pollable : poller_pollable_t MainState :=
  { cb := fun s => some ((fah_control_poll s.world).1,
      { poller := s.poller, world := (fah_control_poll s.world).2 }) }

/-- The pollable `watch->rfd_pollable`, whose callback is
`xscreensaver_watch_rfd_poll`, with the watcher record of `main`. -/
def rfd_pollable : poller_pollable_t MainState :=
  { cb := fun s =>
      (xscreensaver_watch_rfd_poll main_watcher s.world.watch).map fun r =>
        (r.1, { poller := s.poller, world := { s.world with watch := r.2 } }) }

/-- What a call of `epoll_wait` delivers while `main` runs: readiness of the
control socket, readiness of the pipe, or an error. -/
inductive MainEvent where
  | sock
  | pipe
  | error (errno : Nat)
deriving DecidableEq

/-- The event as `poller_run` sees it: `event.data.ptr` is the pollable that was
registered for the descriptor. -/
def main_event : MainEvent → epoll_wait_t MainState
  | .sock => .ready sock_pollable
  | .pipe => .ready rfd_pollable
  | .error e => .error e

/-- The outcomes of the library and system calls of `fah_control_new`: whether
`malloc` succeeds, the result of `socket`, whether `connect` succeeds, and the
connection as the program will see it. -/
structure FahEnv where
  malloc_ok : Bool
  socket : Int
  connect_ok : Bool
  sock : Socket

/-- The whole of `fah_control_new(poller)`, with its calls: the new client
(`fah_control_new sock`, or the null pointer) and the poller afterwards. -/
def fah_control_new_on (env : FahEnv) (p : poller) : Option fah_control × poller :=
  if env.malloc_ok then
    if env.socket ≥ 0 then
      if env.connect_ok then
        match poller_add p env.socket with
        | (true, p1) => (some (fah_control_new env.sock), p1)
        | (false, p1) => (none, p1)
      else
        (none, p)
    else
      (none, p)
  else
    (none, p)

/-- The function `fah_control_delete(fah)` for a client on descriptor `fd`;
`none` is the `abort()` of `poller_remove`. -/
def fah_control_delete (p : poller) (fd : Int) : Option poller :=
  poller_remove p fd

/-- What `add_slots` of `main.c` meets for one argument: `errno` and the value
after `strtoul`, whether `*endptr` is the NUL, and whether a `realloc` made by
`fah_control_slot_add` succeeds. -/
structure ArgEnv where
  errno : Nat
  ul : Nat
  endptr_nul : Bool
  realloc_ok : Bool

/-- The function `add_slots(fah, argc, argv)` over the arguments after the
program name: the result, the client, and `errno` afterwards. -/
def add_slots (fah : fah_control) (errno : Nat) : List ArgEnv → Bool × fah_control × Nat
  | [] => (true, fah, errno)
  | a :: rest =>
      if a.errno ≠ 0 then (false, fah, a.errno)
      else if !a.endptr_nul then (false, fah, EINVAL)
      else if a.ul > UINT_MOD - 1 then (false, fah, EDOM)
      else
        match fah_control_slot_add a.realloc_ok fah (a.ul % UINT_MOD) with
        | (false, fah1) => (false, fah1, 0)
        | (true, fah1) => add_slots fah1 0 rest

/-- Everything outside the program that a run of `main` depends on: whether
`poller_new` succeeds, the calls of `fah_control_new`, the arguments, the calls
of `xscreensaver_watch_new`, the operating system (with what the pipe will
deliver), what the control socket will deliver, and the events that the calls
of `epoll_wait` deliver. -/
structure MainEnv where
  poller_ok : Bool
  fah : FahEnv
  args : List ArgEnv
  watch : NewEnv
  os : OS
  recvs : List ReadResult
  events : List MainEvent

/-- The part of `main` before `poller_run`: `some (some s)` is the state in
which `poller_run` is called, `some none` a failed set-up, and `none` the
`abort()` of `poller_remove`. -/
def main_setup (env : MainEnv) : Option (Option (RunState MainState)) :=
  if env.poller_ok then
    match fah_control_new_on env.fah poller_new with
    | (some fah, p1) =>
        match add_slots fah env.os.errno env.args with
        | (true, fah1, errno1) =>
            match xscreensaver_watch_new env.watch p1 with
            | none => none
            | some (some watch, p2) =>
                some (some
                  { poller := p2
                    world :=
                      { watch :=
                          { watch := watch
                            os := { env.os with errno := errno1 }
                            cookie := { stdout := [], fah := fah1 } }
                        recvs := env.recvs } })
            | some (none, p2) => (fah_control_delete p2 env.fah.socket).map fun _ => none
        | (false, _, _) => (fah_control_delete p1 env.fah.socket).map fun _ => none
    | (none, _) => some none
  else
    some none

/-- The function `main(argc, argv)`: the exit status, or `none` when the process
does not return from `main` (it stays blocked in `epoll_wait`, or it aborts). -/
def main (env : MainEnv) : Option Nat :=
  match main_setup env with
  | none => none
  | some none => some EXIT_FAILURE
  | some (some s) =>
      match (poller_run (env.events.map main_event) s).outcome with
      | .returned ok =>
          let final := (poller_run (env.events.map main_event) s).final
          match xscreensaver_watch_delete (some final.world.watch.watch) final.world.watch.os
              final.poller with
          | none => none
          | some (_, p3) =>
              (fah_control_delete p3 env.fah.socket).map fun _ =>
                if ok then EXIT_SUCCESS else EXIT_FAILURE
      | .blocked => none
      | .aborted => none

/-- A run of `main` used as an example: every set-up call succeeds, the command
line names slot 3, the helper writes `LOCK 1\n`, and the control socket delivers
`hello` and is then closed by its peer; the pipe is ready once and the socket
twice. -/
def example_run : MainEnv :=
  { poller_ok := true
    fah := { malloc_ok := true, socket := 6, connect_ok := true, sock := ⟨[], []⟩ }
    args := [{ errno := 0, ul := 3, endptr_nul := true, realloc_ok := true }]
    watch := { malloc := some (List.replicate 256 'x'), open_null := 3, pipe2 := some (4, 5),
               fcntl_ok := true, spawn := 1234 }
    os := { reads := [.data "LOCK 1\n".toList], errno := 0, log := [] }
    recvs := [.data "hello".toList, .data []]
    events := [.pipe, .sock, .sock] }

/-- The state in which `main` calls `poller_run` in the example run. -/
def example_state : RunState MainState :=
  { poller := { interest := [4, 6], count := 2 }
    world :=
      { watch :=
          { watch := { pid := 1234, rfd := 4, buffer := (List.replicate 256 'x').set 0 NUL }
            os := { reads := [.data "LOCK 1\n".toList], errno := 0, log := [] }
            cookie := { stdout := [], fah := add_all (fah_control_new ⟨[], []⟩) [3] } }
        recvs := [.data "hello".toList, .data []] } }

/-- The callbacks of the pollables `ps`, invoked one after the other from state
`s` on, all succeed and leave state `s'`: before each of them the count of
registered clients is not zero, each runs in the state the one before it left,
and each returns `true`. -/
def all_succeed {σ : Type} : List (poller_pollable_t σ) → RunState σ → RunState σ → Prop
  | [], s, s' => s' = s
  | p :: ps, s, s' =>
      s.poller.count ≠ 0 ∧ ∃ s1, p.cb s = some (true, s1) ∧ all_succeed ps s1 s'

/-- An example of a pollable whose callback succeeds: it counts its calls in the
state and returns `true`. -/
def counting_pollable : poller_pollable_t Nat :=
  { cb := fun s => some (true, { s with world := s.world + 1 }) }

/-- An example of a pollable whose callback fails: it returns `false`. -/
def failing_pollable : poller_pollable_t Nat :=
  { cb := fun s => some (false, s) }

/-! # Theorems -/

/-! ## C strings -/

theorem NUL_ne_newline : NUL ≠ '\n' := by decide

theorem strlen_holds (s junk : List Char) (h : NUL ∉ s) :
    strlen (s ++ NUL :: junk) = some s.length := by
  induction s with
  | nil => simp [strlen]
  | cons a s ih =>
      have ha : a ≠ NUL := fun e => h (by simp [e])
      have hs : NUL ∉ s := fun e => h (by simp [e])
      simp [strlen, ha, ih hs]

theorem strchr_found (c : Char) (a b : List Char) (hc : c ∉ a) (hn : NUL ∉ a) :
    strchr c (a ++ c :: b) = some (some a.length) := by
  induction a with
  | nil => simp [strchr]
  | cons x a ih =>
      have hx : x ≠ c := fun e => hc (by simp [e])
      have hx0 : x ≠ NUL := fun e => hn (by simp [e])
      have h1 : c ∉ a := fun e => hc (by simp [e])
      have h2 : NUL ∉ a := fun e => hn (by simp [e])
      simp [strchr, hx, hx0, ih h1 h2]

theorem strchr_absent (c : Char) (s junk : List Char) (hc : c ∉ s) (hn : NUL ∉ s)
    (hc0 : c ≠ NUL) : strchr c (s ++ NUL :: junk) = some none := by
  induction s with
  | nil => simp [strchr, Ne.symm hc0]
  | cons x a ih =>
      have hx : x ≠ c := fun e => hc (by simp [e])
      have hx0 : x ≠ NUL := fun e => hn (by simp [e])
      have h1 : c ∉ a := fun e => hc (by simp [e])
      have h2 : NUL ∉ a := fun e => hn (by simp [e])
      simp [strchr, hx, hx0, ih h1 h2]

theorem strncmp_eq_holds (lit s junk : List Char) (hl : NUL ∉ lit) (hs : NUL ∉ s) :
    strncmp_eq (s ++ NUL :: junk) (lit ++ [NUL]) lit.length = some (lit.isPrefixOf s) := by
  induction lit generalizing s with
  | nil => simp [strncmp_eq]
  | cons b lit ih =>
      have hb : b ≠ NUL := fun e => hl (by simp [e])
      have hl1 : NUL ∉ lit := fun e => hl (by simp [e])
      cases s with
      | nil => simp [strncmp_eq, Ne.symm hb]
      | cons a s =>
          have ha : a ≠ NUL := fun e => hs (by simp [e])
          have hs1 : NUL ∉ s := fun e => hs (by simp [e])
          by_cases hab : a = b
          · subst hab
            simp [strncmp_eq, ha, ih s hl1 hs1]
          · have hba : ¬ b = a := fun e => hab e.symm
            simp [strncmp_eq, hab, hba, List.isPrefixOf]

theorem isPrefixOf_before (c : Char) (lit a b : List Char) (hc : c ∉ lit) :
    lit.isPrefixOf (a ++ c :: b) = lit.isPrefixOf a := by
  induction lit generalizing a with
  | nil => simp
  | cons x lit ih =>
      have hx : x ≠ c := fun e => hc (by simp [e])
      have h1 : c ∉ lit := fun e => hc (by simp [e])
      cases a with
      | nil => simp [hx, List.isPrefixOf]
      | cons y a => simp [ih a h1, List.isPrefixOf]

theorem poll_once_classify_holds (line rest junk : List Char)
    (h0 : NUL ∉ line ++ '\n' :: rest) :
    poll_once_classify (line ++ '\n' :: rest ++ NUL :: junk) = some (classify line) := by
  have e1 := strncmp_eq_holds "BLANK ".toList (line ++ '\n' :: rest) junk (by decide) h0
  have e2 := strncmp_eq_holds "LOCK ".toList (line ++ '\n' :: rest) junk (by decide) h0
  have e3 := strncmp_eq_holds "UNBLANK ".toList (line ++ '\n' :: rest) junk (by decide) h0
  rw [isPrefixOf_before '\n' _ line rest (by decide)] at e1 e2 e3
  have l1 : ("BLANK ".toList).length = 6 := by decide
  have l2 : ("LOCK ".toList).length = 5 := by decide
  have l3 : ("UNBLANK ".toList).length = 8 := by decide
  rw [l1] at e1
  rw [l2] at e2
  rw [l3] at e3
  have a1 : line ++ '\n' :: rest ++ NUL :: junk = (line ++ '\n' :: rest) ++ NUL :: junk := by simp
  unfold poll_once_classify literal classify
  rw [a1, e1, e2, e3]
  cases h1 : "BLANK ".toList.isPrefixOf line <;> cases h2 : "LOCK ".toList.isPrefixOf line <;>
    cases h3 : "UNBLANK ".toList.isPrefixOf line <;> simp

/-! ## Memory -/

theorem set_at_length {α : Type} (p : List α) (x v : α) (t : List α) :
    (p ++ x :: t).set p.length v = p ++ v :: t := by
  induction p with
  | nil => simp
  | cons a p ih => simp [ih]

theorem mem_write_holds (s data junk : List Char) (hd : data.length ≤ junk.length) :
    mem_write (s ++ NUL :: junk) s.length data
      = some (s ++ data ++ (NUL :: junk).drop data.length) := by
  unfold mem_write
  have h : s.length + data.length ≤ (s ++ NUL :: junk).length := by
    simp only [List.length_append, List.length_cons]
    omega
  rw [if_pos h]
  simp [List.take_append_eq_append_take, List.drop_append_eq_append_drop]

theorem mem_store_holds (s data junk : List Char) (hd : data.length ≤ junk.length) :
    mem_store (s ++ data ++ (NUL :: junk).drop data.length) (s.length + data.length) NUL
      = some (s ++ data ++ NUL :: junk.drop data.length) := by
  have hlt : data.length < (NUL :: junk).length := by
    simp only [List.length_cons]
    omega
  have e : (NUL :: junk).drop data.length
      = (NUL :: junk)[data.length] :: junk.drop data.length := by
    rw [List.drop_eq_getElem_cons hlt]
    simp
  unfold mem_store
  rw [e]
  have hl : s.length + data.length = (s ++ data).length := by simp
  rw [hl, set_at_length]
  simp

theorem holds_length (mem s : List Char) (h : Holds mem s) : s.length ≤ 255 := by
  obtain ⟨hl, _, junk, rfl⟩ := h
  simp only [List.length_append, List.length_cons, sizeof_buffer] at hl
  omega

theorem holds_strlen (mem s : List Char) (h : Holds mem s) : strlen mem = some s.length := by
  obtain ⟨_, h0, junk, rfl⟩ := h
  exact strlen_holds s junk h0

/-! ## The read part of a step -/

theorem poll_once_read_data {σ : Type} (st : WatchState σ) (s bytes : List Char)
    (rest : List ReadResult) (hH : Holds st.watch.buffer s) (hlen : s.length < 255)
    (hr : st.os.reads = .data bytes :: rest) (hb : bytes ≠ []) :
    ∃ b junk, b = s ++ bytes.take (255 - s.length) ++ NUL :: junk ∧ b.length = sizeof_buffer ∧
      poll_once_read st = some (.go { st with
        watch := { st.watch with buffer := b }
        os := { reads := if bytes.length ≤ 255 - s.length then rest
                  else .data (bytes.drop (255 - s.length)) :: rest
                errno := st.os.errno
                log := st.os.log ++ [.read st.watch.rfd (255 - s.length)] } } true) := by
  obtain ⟨hl, h0, junk, hm⟩ := hH
  have hjl : junk.length = 255 - s.length := by
    rw [hm] at hl
    simp only [List.length_append, List.length_cons, sizeof_buffer] at hl
    omega
  have hd : (bytes.take (255 - s.length)).length ≤ junk.length := by
    rw [List.length_take]
    omega
  have hpos : 0 < (bytes.take (255 - s.length)).length := by
    rw [List.length_take]
    have : 0 < bytes.length := List.length_pos.mpr hb
    omega
  refine ⟨_, junk.drop (bytes.take (255 - s.length)).length, rfl, ?_, ?_⟩
  · simp only [List.length_append, List.length_cons, List.length_drop, sizeof_buffer]
    omega
  · unfold poll_once_read
    rw [hm, strlen_holds s junk h0]
    have hk : sizeof_buffer - s.length - 1 = 255 - s.length := by
      simp only [sizeof_buffer]
      omega
    have hk0 : 255 - s.length ≠ 0 := by omega
    simp only [hk, hk0, ne_eq, not_false_eq_true, if_true, sys_read, hr]
    have hrc0 : ¬ (((bytes.take (255 - s.length)).length : Int) = 0) := by omega
    have hrc1 : (((bytes.take (255 - s.length)).length : Int) > 0) := by omega
    rw [if_neg hrc0, if_pos hrc1]
    rw [← hm]
    simp only [Int.toNat_ofNat]
    rw [hm, mem_write_holds s _ junk hd]
    simp only []
    rw [mem_store_holds s _ junk hd]

theorem poll_once_read_empty {σ : Type} (st : WatchState σ) (s : List Char)
    (hH : Holds st.watch.buffer s) (hlen : s.length < 255) (hr : st.os.reads = []) :
    poll_once_read st = some (.go { st with
      os := { reads := [], errno := EAGAIN
              log := st.os.log ++ [.read st.watch.rfd (255 - s.length)] } } false) := by
  unfold poll_once_read
  rw [holds_strlen _ _ hH]
  have hk : sizeof_buffer - s.length - 1 = 255 - s.length := by
    simp only [sizeof_buffer]
    omega
  have hk0 : 255 - s.length ≠ 0 := by omega
  simp [hk, hk0, sys_read, hr]

theorem poll_once_read_eagain {σ : Type} (st : WatchState σ) (s : List Char)
    (rest : List ReadResult) (hH : Holds st.watch.buffer s) (hlen : s.length < 255)
    (hr : st.os.reads = .fail EAGAIN :: rest) :
    poll_once_read st = some (.go { st with
      os := { reads := rest, errno := EAGAIN
              log := st.os.log ++ [.read st.watch.rfd (255 - s.length)] } } false) := by
  unfold poll_once_read
  rw [holds_strlen _ _ hH]
  have hk : sizeof_buffer - s.length - 1 = 255 - s.length := by
    simp only [sizeof_buffer]
    omega
  have hk0 : 255 - s.length ≠ 0 := by omega
  simp [hk, hk0, sys_read, hr]

theorem poll_once_read_fail {σ : Type} (st : WatchState σ) (s : List Char)
    (rest : List ReadResult) (e : Nat) (hH : Holds st.watch.buffer s) (hlen : s.length < 255)
    (hr : st.os.reads = .fail e :: rest) (he : e ≠ EAGAIN) :
    poll_once_read st = some (.stop { st with
      os := { reads := rest, errno := e
              log := st.os.log ++ [.read st.watch.rfd (255 - s.length)] } }) := by
  unfold poll_once_read
  rw [holds_strlen _ _ hH]
  have hk : sizeof_buffer - s.length - 1 = 255 - s.length := by
    simp only [sizeof_buffer]
    omega
  have hk0 : 255 - s.length ≠ 0 := by omega
  simp [hk, hk0, sys_read, hr, he]

theorem poll_once_read_eof {σ : Type} (st : WatchState σ) (s : List Char)
    (rest : List ReadResult) (hH : Holds st.watch.buffer s) (hlen : s.length < 255)
    (hr : st.os.reads = .data [] :: rest) :
    poll_once_read st = some (.stop { st with
      os := { reads := rest, errno := ESRCH
              log := st.os.log ++ [.read st.watch.rfd (255 - s.length), .waitpid st.watch.pid] } }) := by
  unfold poll_once_read
  rw [holds_strlen _ _ hH]
  have hk : sizeof_buffer - s.length - 1 = 255 - s.length := by
    simp only [sizeof_buffer]
    omega
  have hk0 : 255 - s.length ≠ 0 := by omega
  simp [hk, hk0, sys_read, hr]

theorem poll_once_read_full {σ : Type} (st : WatchState σ) (s : List Char)
    (hH : Holds st.watch.buffer s) (hlen : s.length = 255) :
    poll_once_read st = some (.go st false) := by
  unfold poll_once_read
  rw [holds_strlen _ _ hH]
  simp [hlen, sizeof_buffer]

/-! ## The parse part of a step -/

theorem eat_line (mem line rest : List Char) (hH : Holds mem (line ++ '\n' :: rest))
    (hnl : '\n' ∉ line) :
    strchr '\n' mem = some (some line.length) ∧
    poll_once_classify mem = some (classify line) ∧
    strlen (mem.drop (line.length + 1)) = some rest.length ∧
    ∃ b, memmove_front mem (line.length + 1) (rest.length + 1) = some b ∧ Holds b rest := by
  obtain ⟨hl, h0, junk, hm⟩ := hH
  have h0l : NUL ∉ line := fun e => h0 (by simp [e])
  have h0r : NUL ∉ rest := fun e => h0 (by simp [e])
  have hm1 : mem = line ++ '\n' :: (rest ++ NUL :: junk) := by simp [hm]
  have hdrop : mem.drop (line.length + 1) = rest ++ NUL :: junk := by
    rw [hm1, List.drop_append_eq_append_drop]
    simp
  have hlen : mem.length = line.length + 1 + (rest.length + 1 + junk.length) := by
    rw [hm1]
    simp only [List.length_append, List.length_cons]
    omega
  refine ⟨?_, ?_, ?_, ?_⟩
  · rw [hm1]
    exact strchr_found '\n' line _ hnl h0l
  · rw [hm]
    have := poll_once_classify_holds line rest junk h0
    simpa using this
  · rw [hdrop]
    exact strlen_holds rest junk h0r
  · refine ⟨rest ++ NUL :: mem.drop (rest.length + 1), ?_, ?_, h0r, _, rfl⟩
    · unfold memmove_front
      have hle : line.length + 1 + (rest.length + 1) ≤ mem.length := by omega
      rw [if_pos hle, hdrop]
      have : (rest ++ NUL :: junk).take (rest.length + 1) = rest ++ [NUL] := by
        rw [List.take_append_eq_append_take]
        simp
      rw [this]
      simp
    · simp only [List.length_append, List.length_cons, List.length_drop]
      omega

theorem poll_once_parse_none {σ : Type} (watcher : xscreensaver_watch_watcher_t σ)
    (st : WatchState σ) (s : List Char) (did_work : Bool) (hH : Holds st.watch.buffer s)
    (hnl : '\n' ∉ s) : poll_once_parse watcher st did_work = some (.go st did_work) := by
  obtain ⟨_, h0, junk, hm⟩ := hH
  unfold poll_once_parse
  rw [hm, strchr_absent '\n' s junk hnl h0 (by decide)]

theorem poll_once_parse_other {σ : Type} (watcher : xscreensaver_watch_watcher_t σ)
    (st : WatchState σ) (line rest : List Char) (did_work : Bool)
    (hH : Holds st.watch.buffer (line ++ '\n' :: rest)) (hnl : '\n' ∉ line)
    (hc : classify line = none) :
    ∃ b, Holds b rest ∧ poll_once_parse watcher st did_work
      = some (.go { st with watch := { st.watch with buffer := b } } true) := by
  obtain ⟨h1, h2, h3, b, h4, h5⟩ := eat_line _ line rest hH hnl
  refine ⟨b, h5, ?_⟩
  unfold poll_once_parse
  rw [h1, h2, hc]
  simp only [if_true]
  rw [h3]
  simp only []
  rw [h4]

theorem poll_once_parse_notify {σ : Type} (watcher : xscreensaver_watch_watcher_t σ)
    (st : WatchState σ) (line rest : List Char) (did_work value : Bool)
    (hH : Holds st.watch.buffer (line ++ '\n' :: rest)) (hnl : '\n' ∉ line)
    (hc : classify line = some value) (hok : (watcher.cb st.cookie value).1 = true) :
    ∃ b, Holds b rest ∧ poll_once_parse watcher st did_work
      = some (.go { watch := { st.watch with buffer := b }
                    os := { st.os with log := st.os.log ++ [.notify value] }
                    cookie := (watcher.cb st.cookie value).2 } true) := by
  obtain ⟨h1, h2, h3, b, h4, h5⟩ := eat_line _ line rest hH hnl
  refine ⟨b, h5, ?_⟩
  unfold poll_once_parse
  rw [h1, h2, hc]
  simp only [hok, if_true]
  rw [h3]
  simp only []
  rw [h4]

theorem poll_once_parse_refused {σ : Type} (watcher : xscreensaver_watch_watcher_t σ)
    (st : WatchState σ) (line rest : List Char) (did_work value : Bool)
    (hH : Holds st.watch.buffer (line ++ '\n' :: rest)) (hnl : '\n' ∉ line)
    (hc : classify line = some value) (hok : (watcher.cb st.cookie value).1 = false) :
    poll_once_parse watcher st did_work
      = some (.stop { st with
                    os := { st.os with log := st.os.log ++ [.notify value] }
                    cookie := (watcher.cb st.cookie value).2 }) := by
  obtain ⟨h1, h2, _, _, _, _⟩ := eat_line _ line rest hH hnl
  unfold poll_once_parse
  rw [h1, h2, hc]
  simp [hok]

/-! ## The check at the end of a step -/

theorem poll_once_check_holds {σ : Type} (st : WatchState σ) (s : List Char) (did_work : Bool)
    (hH : Holds st.watch.buffer s) :
    poll_once_check st did_work =
      if s.length = 255 then some (.ERROR, { st with os := { st.os with errno := EPROTO } })
      else some (if did_work then .AGAIN else .WAIT, st) := by
  unfold poll_once_check
  rw [holds_strlen _ _ hH]
  simp [sizeof_buffer]

/-! ## Steps on well-behaved input -/

theorem partial_reads_tail (r : ReadResult) (reads : List ReadResult)
    (h : partial_reads (r :: reads)) : partial_reads reads :=
  fun x hx => h x (List.mem_cons_of_mem r hx)

theorem partial_reads_after (reads : List ReadResult) (count : Nat) (h : partial_reads reads) :
    partial_reads (reads_after reads count) := by
  cases reads with
  | nil => simpa [reads_after] using h
  | cons r rest =>
      have ht := partial_reads_tail r rest h
      cases r with
      | fail e => simpa [reads_after] using ht
      | data bytes =>
          by_cases hle : bytes.length ≤ count
          · simpa [reads_after, hle] using ht
          · simp only [reads_after, hle, if_false]
            intro x hx
            rcases List.mem_cons.mp hx with rfl | hx
            · right
              refine ⟨_, ?_, rfl⟩
              intro e
              have := congrArg List.length e
              simp only [List.length_drop, List.length_nil] at this
              omega
            · exact ht x hx

theorem pending_after (reads : List ReadResult) (count : Nat) :
    incoming reads count ++ pending (reads_after reads count) = pending reads := by
  cases reads with
  | nil => simp [incoming, reads_after, pending]
  | cons r rest =>
      cases r with
      | fail e => simp [incoming, reads_after, pending]
      | data bytes =>
          by_cases hle : bytes.length ≤ count
          · simp [reads_after, incoming, hle, pending, List.take_of_length_le hle]
          · simp only [reads_after, incoming, hle, if_false, pending]
            rw [← List.append_assoc, List.take_append_drop]

theorem reads_after_length (reads : List ReadResult) (count : Nat) :
    (reads_after reads count).length ≤ reads.length := by
  cases reads with
  | nil => simp [reads_after]
  | cons r rest =>
      cases r with
      | fail e => simp [reads_after]
      | data bytes =>
          by_cases hle : bytes.length ≤ count <;> simp [reads_after, hle]

theorem reads_after_length_idle (reads : List ReadResult) (count : Nat) (h : partial_reads reads)
    (hi : incoming reads count = []) (hc : 0 < count) (hne : reads ≠ []) :
    (reads_after reads count).length < reads.length := by
  cases reads with
  | nil => exact absurd rfl hne
  | cons r rest =>
      cases r with
      | fail e => simp [reads_after]
      | data bytes =>
          exfalso
          rcases h (.data bytes) (by simp) with h1 | ⟨bs, hbs, h1⟩
          · cases h1
          · cases h1
            simp only [incoming, List.take_eq_nil_iff] at hi
            rcases hi with hi | hi
            · omega
            · exact hbs hi

theorem reads_size_after (reads : List ReadResult) (count : Nat) (h : partial_reads reads)
    (hc : 0 < count) :
    reads_size (reads_after reads count) + (incoming reads count).length ≤ reads_size reads ∧
    (reads ≠ [] → reads_size (reads_after reads count) + (incoming reads count).length
        < reads_size reads ∨ 0 < (incoming reads count).length) := by
  cases reads with
  | nil => simp [reads_after, incoming, reads_size]
  | cons r rest =>
      cases r with
      | fail e =>
          simp only [reads_after, incoming, reads_size, List.length_nil]
          omega
      | data bytes =>
          rcases h (.data bytes) (by simp) with h1 | ⟨bs, hbs, h1⟩
          · cases h1
          · cases h1
            have hpos : 0 < bytes.length := List.length_pos.mpr hbs
            by_cases hle : bytes.length ≤ count
            · simp only [reads_after, incoming, hle, if_true, reads_size, List.length_take]
              omega
            · simp only [reads_after, incoming, hle, if_false, reads_size, List.length_take,
                List.length_drop]
              omega

theorem read_clean {σ : Type} (st : WatchState σ) (s : List Char)
    (hH : Holds st.watch.buffer s) (hlen : s.length < 255) (hp : partial_reads st.os.reads)
    (h0 : NUL ∉ incoming st.os.reads (255 - s.length)) :
    ∃ b, Holds b (s ++ incoming st.os.reads (255 - s.length)) ∧
      poll_once_read st = some (.go { st with
        watch := { st.watch with buffer := b }
        os := { reads := reads_after st.os.reads (255 - s.length)
                errno := errno_after st.os.reads st.os.errno
                log := st.os.log ++ [.read st.watch.rfd (255 - s.length)] } }
        (decide (incoming st.os.reads (255 - s.length) ≠ []))) := by
  cases hr : st.os.reads with
  | nil =>
      refine ⟨st.watch.buffer, by simpa [incoming] using hH, ?_⟩
      rw [poll_once_read_empty st s hH hlen hr]
      simp [incoming, reads_after, errno_after]
  | cons r rest =>
      rcases hp r (by simp [hr]) with h1 | ⟨bytes, hb, h1⟩
      · subst h1
        refine ⟨st.watch.buffer, by simpa [incoming] using hH, ?_⟩
        rw [poll_once_read_eagain st s rest hH hlen hr]
        simp [incoming, reads_after, errno_after]
      · subst h1
        obtain ⟨b, junk, hb1, hb2, hb3⟩ := poll_once_read_data st s bytes rest hH hlen hr hb
        rw [hr] at h0
        refine ⟨b, ⟨hb2, ?_, junk, by simpa [incoming] using hb1⟩, ?_⟩
        · intro hm
          rcases List.mem_append.mp hm with hm | hm
          · exact hH.2.1 hm
          · exact h0 hm
        · rw [hb3]
          have hne : bytes.take (255 - s.length) ≠ [] := by
            intro e
            rcases List.take_eq_nil_iff.mp e with e | e
            · omega
            · exact hb e
          simp [incoming, reads_after, errno_after, hne]

theorem step_no_line {σ : Type} (watcher : xscreensaver_watch_watcher_t σ) (st : WatchState σ)
    (s : List Char) (hH : Holds st.watch.buffer s) (hlen : s.length < 255)
    (hp : partial_reads st.os.reads) (h0 : NUL ∉ incoming st.os.reads (255 - s.length))
    (hnl : '\n' ∉ s ++ incoming st.os.reads (255 - s.length)) :
    ∃ b, Holds b (s ++ incoming st.os.reads (255 - s.length)) ∧
      xscreensaver_watch_rfd_poll_once watcher st =
        if (s ++ incoming st.os.reads (255 - s.length)).length = 255 then
          some (.ERROR,
            { watch := { st.watch with buffer := b }
              os := { reads := reads_after st.os.reads (255 - s.length)
                      errno := EPROTO
                      log := st.os.log ++ [.read st.watch.rfd (255 - s.length)] }
              cookie := st.cookie })
        else
          some (if incoming st.os.reads (255 - s.length) ≠ [] then .AGAIN else .WAIT,
            { watch := { st.watch with buffer := b }
              os := { reads := reads_after st.os.reads (255 - s.length)
                      errno := errno_after st.os.reads st.os.errno
                      log := st.os.log ++ [.read st.watch.rfd (255 - s.length)] }
              cookie := st.cookie }) := by
  obtain ⟨b, hb, hread⟩ := read_clean st s hH hlen hp h0
  refine ⟨b, hb, ?_⟩
  unfold xscreensaver_watch_rfd_poll_once
  rw [hread]
  simp only []
  rw [poll_once_parse_none watcher _ _ _ hb hnl]
  simp only []
  rw [poll_once_check_holds _ _ _ hb]
  by_cases h255 : (s ++ incoming st.os.reads (255 - s.length)).length = 255
  · simp [h255]
  · by_cases hi : incoming st.os.reads (255 - s.length) = [] <;> simp [h255, hi]

theorem step_line {σ : Type} (watcher : xscreensaver_watch_watcher_t σ) (st : WatchState σ)
    (s line rest : List Char) (hH : Holds st.watch.buffer s) (hlen : s.length < 255)
    (hp : partial_reads st.os.reads) (h0 : NUL ∉ incoming st.os.reads (255 - s.length))
    (hs : s ++ incoming st.os.reads (255 - s.length) = line ++ '\n' :: rest)
    (hnl : '\n' ∉ line)
    (hok : ∀ v, classify line = some v → (watcher.cb st.cookie v).1 = true) :
    ∃ b, Holds b rest ∧
      xscreensaver_watch_rfd_poll_once watcher st =
        some (.AGAIN,
          { watch := { st.watch with buffer := b }
            os := { reads := reads_after st.os.reads (255 - s.length)
                    errno := errno_after st.os.reads st.os.errno
                    log := st.os.log ++ [.read st.watch.rfd (255 - s.length)]
                      ++ (classify line).toList.map Event.notify }
            cookie := notify_all watcher st.cookie (classify line).toList }) := by
  obtain ⟨b1, hb1, hread⟩ := read_clean st s hH hlen hp h0
  rw [hs] at hb1
  have hrest : rest.length ≠ 255 := by
    have := holds_length _ _ hb1
    simp only [List.length_append, List.length_cons] at this
    omega
  unfold xscreensaver_watch_rfd_poll_once
  rw [hread]
  simp only []
  cases hc : classify line with
  | none =>
      obtain ⟨b, hb, hparse⟩ := poll_once_parse_other watcher
        { st with
          watch := { st.watch with buffer := b1 }
          os := { reads := reads_after st.os.reads (255 - s.length)
                  errno := errno_after st.os.reads st.os.errno
                  log := st.os.log ++ [.read st.watch.rfd (255 - s.length)] } }
        line rest (decide (incoming st.os.reads (255 - s.length) ≠ [])) hb1 hnl hc
      refine ⟨b, hb, ?_⟩
      rw [hparse]
      simp only []
      rw [poll_once_check_holds _ _ _ hb]
      simp [hrest, notify_all]
  | some v =>
      obtain ⟨b, hb, hparse⟩ := poll_once_parse_notify watcher
        { st with
          watch := { st.watch with buffer := b1 }
          os := { reads := reads_after st.os.reads (255 - s.length)
                  errno := errno_after st.os.reads st.os.errno
                  log := st.os.log ++ [.read st.watch.rfd (255 - s.length)] } }
        line rest (decide (incoming st.os.reads (255 - s.length) ≠ [])) v hb1 hnl hc (hok v hc)
      refine ⟨b, hb, ?_⟩
      rw [hparse]
      simp only []
      rw [poll_once_check_holds _ _ _ hb]
      simp [hrest, notify_all]

/-! ## Invariants of the loops -/

theorem rfd_poll_loop_inv {σ : Type} (watcher : xscreensaver_watch_watcher_t σ)
    (I E Wt : WatchState σ → Prop) (μ : WatchState σ → Nat)
    (hstep : ∀ st, I st → ∃ r st', xscreensaver_watch_rfd_poll_once watcher st = some (r, st') ∧
        st'.os.reads.length ≤ st.os.reads.length ∧
        (r = .AGAIN → I st' ∧ μ st' < μ st) ∧
        (r = .WAIT → I st' ∧ Wt st' ∧
          (st.os.reads ≠ [] → st'.os.reads.length < st.os.reads.length)) ∧
        (r = .ERROR → E st')) :
    ∀ fuel st, I st → μ st < fuel →
      ∃ ok st', rfd_poll_loop watcher fuel st = some (ok, st') ∧
        st'.os.reads.length ≤ st.os.reads.length ∧
        (ok = true → I st' ∧ Wt st' ∧
          (st.os.reads ≠ [] → st'.os.reads.length < st.os.reads.length)) ∧
        (ok = false → E st') := by
  intro fuel
  induction fuel with
  | zero => intro st _ h; omega
  | succ fuel ih =>
      intro st hI hμ
      obtain ⟨r, st1, hr, hlen, hA, hW, hE⟩ := hstep st hI
      cases r with
      | AGAIN =>
          obtain ⟨hI1, hμ1⟩ := hA rfl
          obtain ⟨ok, st2, h2, hlen2, hT, hF⟩ := ih st1 hI1 (by omega)
          refine ⟨ok, st2, ?_, by omega, ?_, hF⟩
          · simp only [rfd_poll_loop, hr]
            exact h2
          · intro hok
            obtain ⟨a, b, c⟩ := hT hok
            refine ⟨a, b, fun hne => ?_⟩
            by_cases h1 : st1.os.reads = []
            · have h3 : st2.os.reads.length = 0 := by
                rw [h1] at hlen2
                simpa using hlen2
              have h4 : 0 < st.os.reads.length := List.length_pos.mpr hne
              omega
            · have := c h1
              omega
      | WAIT =>
          refine ⟨true, st1, ?_, hlen, fun _ => hW rfl, fun h => Bool.noConfusion h⟩
          simp only [rfd_poll_loop, hr]
      | ERROR =>
          refine ⟨false, st1, ?_, hlen, fun h => Bool.noConfusion h, fun _ => hE rfl⟩
          simp only [rfd_poll_loop, hr]

theorem watch_polls_inv {σ : Type} (watcher : xscreensaver_watch_watcher_t σ)
    (I E Wt : WatchState σ → Prop) (μ : WatchState σ → Nat)
    (hstep : ∀ st, I st → ∃ r st', xscreensaver_watch_rfd_poll_once watcher st = some (r, st') ∧
        st'.os.reads.length ≤ st.os.reads.length ∧
        (r = .AGAIN → I st' ∧ μ st' < μ st) ∧
        (r = .WAIT → I st' ∧ Wt st' ∧
          (st.os.reads ≠ [] → st'.os.reads.length < st.os.reads.length)) ∧
        (r = .ERROR → E st'))
    (hμ : ∀ st, I st → μ st < 2 * reads_size st.os.reads + sizeof_buffer + 1) :
    ∀ n st, I st →
      ∃ ok st', watch_polls watcher n st = some (ok, st') ∧
        (ok = true → I st' ∧ (0 < n → Wt st') ∧ (n = 0 → st' = st) ∧
          st'.os.reads.length ≤ st.os.reads.length - n) ∧
        (ok = false → E st') := by
  intro n
  induction n with
  | zero =>
      intro st hI
      exact ⟨true, st, rfl, fun _ => ⟨hI, fun h => absurd h (by omega), fun _ => rfl, by omega⟩,
        fun h => Bool.noConfusion h⟩
  | succ n ih =>
      intro st hI
      obtain ⟨ok1, st1, h1, hlen1, hT1, hF1⟩ :=
        rfd_poll_loop_inv watcher I E Wt μ hstep _ st hI (hμ st hI)
      cases ok1 with
      | false =>
          refine ⟨false, st1, ?_, fun h => Bool.noConfusion h, fun _ => hF1 rfl⟩
          simp only [watch_polls, xscreensaver_watch_rfd_poll, h1]
      | true =>
          obtain ⟨hI1, hW1, hp1⟩ := hT1 rfl
          obtain ⟨ok, st2, h2, hT2, hF2⟩ := ih st1 hI1
          refine ⟨ok, st2, ?_, ?_, hF2⟩
          · simp only [watch_polls, xscreensaver_watch_rfd_poll, h1]
            exact h2
          · intro hok
            obtain ⟨a, b, c, d⟩ := hT2 hok
            refine ⟨a, fun _ => ?_, fun h => absurd h (by omega), ?_⟩
            · by_cases hn : n = 0
              · rw [c hn]
                exact hW1
              · exact b (by omega)
            · by_cases h0 : st.os.reads = []
              · rw [h0] at hlen1
                simp only [List.length_nil] at hlen1
                omega
              · have := hp1 h0
                omega

/-! ## Lines -/

theorem split_unique {α : Type} (c : α) (a a' b b' : List α) (h : a ++ c :: b = a' ++ c :: b')
    (ha : c ∉ a) (ha' : c ∉ a') : a = a' ∧ b = b' := by
  induction a generalizing a' with
  | nil =>
      cases a' with
      | nil => simpa using h
      | cons x a' =>
          simp only [List.nil_append, List.cons_append, List.cons.injEq] at h
          exact absurd h.1 (fun e => ha' (by simp [e]))
  | cons x a ih =>
      cases a' with
      | nil =>
          simp only [List.nil_append, List.cons_append, List.cons.injEq] at h
          exact absurd h.1 (fun e => ha (by simp [e]))
      | cons y a' =>
          simp only [List.cons_append, List.cons.injEq] at h
          obtain ⟨e1, e2⟩ := ih a' h.2 (fun e => ha (by simp [e])) (fun e => ha' (by simp [e]))
          exact ⟨by rw [h.1, e1], e2⟩

theorem split_length {α : Type} (c : α) (a a' b b' : List α) (h : a ++ b = a' ++ c :: b')
    (ha : c ∉ a) : a.length ≤ a'.length := by
  induction a generalizing a' with
  | nil => simp
  | cons x a ih =>
      cases a' with
      | nil =>
          simp only [List.nil_append, List.cons_append, List.cons.injEq] at h
          exact absurd h.1 (fun e => ha (by simp [e]))
      | cons y a' =>
          simp only [List.cons_append, List.cons.injEq] at h
          have := ih a' h.2 (fun e => ha (by simp [e]))
          simp only [List.length_cons]
          omega

theorem holds_unique (mem s s' : List Char) (h : Holds mem s) (h' : Holds mem s') : s = s' := by
  obtain ⟨_, h0, junk, hm⟩ := h
  obtain ⟨_, h0', junk', hm'⟩ := h'
  exact (split_unique NUL s s' junk junk' (hm ▸ hm') h0 h0').1

theorem lines_text_no_nul (lines : List (List Char)) (h : ∀ l ∈ lines, good_line l) :
    NUL ∉ lines_text lines := by
  induction lines with
  | nil => simp [lines_text]
  | cons l lines ih =>
      have hl := h l (by simp)
      have ht := ih (fun x hx => h x (by simp [hx]))
      simp only [lines_text, List.mem_append, List.mem_cons, not_or]
      exact ⟨hl.2.1, NUL_ne_newline, ht⟩

theorem notifications_append (a b : List Event) :
    notifications (a ++ b) = notifications a ++ notifications b := by
  simp [notifications, List.filterMap_append]

theorem notifications_read (fd : Int) (count : Nat) : notifications [.read fd count] = [] := by
  simp [notifications]

theorem notifications_notify (v : Option Bool) :
    notifications (v.toList.map Event.notify) = v.toList := by
  cases v <;> simp [notifications]

theorem filterMap_classify_cons (l : List Char) (lines : List (List Char)) :
    (l :: lines).filterMap classify = (classify l).toList ++ lines.filterMap classify := by
  cases h : classify l <;> simp [List.filterMap_cons, h]

theorem notify_all_append {σ : Type} (watcher : xscreensaver_watch_watcher_t σ) (c : σ)
    (a b : List Bool) :
    notify_all watcher c (a ++ b) = notify_all watcher (notify_all watcher c a) b := by
  simp [notify_all, List.foldl_append]

theorem poll_measure_holds {σ : Type} (st : WatchState σ) (s : List Char)
    (h : Holds st.watch.buffer s) : poll_measure st = 2 * reads_size st.os.reads + s.length := by
  simp [poll_measure, holds_strlen _ _ h]

theorem lines_step {σ : Type} (watcher : xscreensaver_watch_watcher_t σ) (P : σ → Prop)
    (A : Bool → Prop) (values : List Bool) (final : σ)
    (hP : ∀ c v, P c → A v → (watcher.cb c v).1 = true ∧ P (watcher.cb c v).2)
    (st : WatchState σ) (hI : LinesInv watcher P A values final st) :
    ∃ r st', xscreensaver_watch_rfd_poll_once watcher st = some (r, st') ∧
      st'.os.reads.length ≤ st.os.reads.length ∧
      (r = .AGAIN → LinesInv watcher P A values final st' ∧
        poll_measure st' < poll_measure st) ∧
      (r = .WAIT → LinesInv watcher P A values final st' ∧ NoLine st' ∧
        (st.os.reads ≠ [] → st'.os.reads.length < st.os.reads.length)) ∧
      (r = .ERROR → False) := by
  obtain ⟨s, todo, hH, hlen, hp, htext, hgood, hval, hfin, hPc⟩ := hI
  have hk : 0 < 255 - s.length := by omega
  have htext1 : (s ++ incoming st.os.reads (255 - s.length))
      ++ pending (reads_after st.os.reads (255 - s.length)) = lines_text todo := by
    rw [List.append_assoc, pending_after]
    exact htext
  have hnul := lines_text_no_nul todo (fun l hl => (hgood l hl).1)
  have h0 : NUL ∉ incoming st.os.reads (255 - s.length) := by
    intro hm
    apply hnul
    rw [← htext1]
    simp [hm]
  have hsz := reads_size_after st.os.reads (255 - s.length) hp hk
  have hm0 := poll_measure_holds st s hH
  by_cases hnl : '\n' ∈ s ++ incoming st.os.reads (255 - s.length)
  · -- a complete line is in the buffer
    obtain ⟨line, rest, hs, hline⟩ := List.eq_append_cons_of_mem hnl
    cases todo with
    | nil =>
        exfalso
        rw [hs] at htext1
        simp [lines_text] at htext1
    | cons l todo =>
        have hl := (hgood l (by simp)).1
        have hA := (hgood l (by simp)).2
        have hsplit : line ++ '\n' :: (rest ++ pending (reads_after st.os.reads (255 - s.length)))
            = l ++ '\n' :: lines_text todo := by
          have h5 : lines_text (l :: todo) = l ++ '\n' :: lines_text todo := rfl
          rw [← h5, ← htext1, hs]
          simp
        obtain ⟨e1, e2⟩ := split_unique '\n' _ _ _ _ hsplit hline hl.1
        subst e1
        have hok : ∀ v, classify line = some v → (watcher.cb st.cookie v).1 = true :=
          fun v hv => (hP st.cookie v hPc (hA v hv)).1
        obtain ⟨b, hb, hstep⟩ := step_line watcher st s line rest hH hlen hp h0 hs hline hok
        have hrest : rest.length < 255 := by
          have h1 := holds_length _ _ hb
          have h2 : (s ++ incoming st.os.reads (255 - s.length)).length ≤ 255 := by
            have : (incoming st.os.reads (255 - s.length)).length ≤ 255 - s.length := by
              cases hr : st.os.reads with
              | nil => simp [incoming]
              | cons r rs =>
                  cases r with
                  | fail e => simp [incoming]
                  | data bytes => simp [incoming, List.length_take]
            simp only [List.length_append]
            omega
          rw [hs] at h2
          simp only [List.length_append, List.length_cons] at h2
          omega
        refine ⟨_, _, hstep, reads_after_length _ _, fun _ => ⟨?_, ?_⟩,
          fun h => xscreensaver_watch_rfd_poll_once_t.noConfusion h,
          fun h => xscreensaver_watch_rfd_poll_once_t.noConfusion h⟩
        · refine ⟨rest, todo, hb, hrest, partial_reads_after _ _ hp, e2,
            fun x hx => hgood x (by simp [hx]), ?_, ?_, ?_⟩
          · rw [← hval, filterMap_classify_cons]
            simp only [notifications_append, notifications_read, notifications_notify,
              List.append_nil, List.append_assoc, List.nil_append]
          · rw [← hfin, filterMap_classify_cons, notify_all_append]
          · cases hc : classify line with
            | none => simpa [notify_all] using hPc
            | some v => simpa [notify_all] using (hP st.cookie v hPc (hA v hc)).2
        · rw [hm0]
          rw [poll_measure_holds _ rest hb]
          have h3 : (s ++ incoming st.os.reads (255 - s.length)).length
              = line.length + 1 + rest.length := by
            rw [hs]
            simp only [List.length_append, List.length_cons]
            omega
          simp only [List.length_append] at h3
          have := hsz.1
          simp only []
          omega
  · -- no complete line yet
    obtain ⟨b, hb, hstep⟩ := step_no_line watcher st s hH hlen hp h0 hnl
    have hshort : (s ++ incoming st.os.reads (255 - s.length)).length < 255 := by
      cases todo with
      | nil =>
          have h9 := congrArg List.length htext1
          simp only [lines_text, List.length_append, List.length_nil] at h9
          simp only [List.length_append]
          omega
      | cons l todo =>
          have hl := (hgood l (by simp)).1
          have := split_length '\n' _ l _ (lines_text todo) htext1 hnl
          have := hl.2.2
          omega
    rw [if_neg (by omega)] at hstep
    have hinv : LinesInv watcher P A values final
        { watch := { st.watch with buffer := b }
          os := { reads := reads_after st.os.reads (255 - s.length)
                  errno := errno_after st.os.reads st.os.errno
                  log := st.os.log ++ [.read st.watch.rfd (255 - s.length)] }
          cookie := st.cookie } := by
      refine ⟨_, todo, hb, hshort, partial_reads_after _ _ hp, htext1, hgood, ?_, hfin, hPc⟩
      rw [← hval]
      simp only [notifications_append, notifications_read, List.append_nil]
    by_cases hi : incoming st.os.reads (255 - s.length) = []
    · rw [if_neg (by simp [hi])] at hstep
      refine ⟨_, _, hstep, reads_after_length _ _,
        fun h => xscreensaver_watch_rfd_poll_once_t.noConfusion h,
        fun _ => ⟨hinv, ?_, fun hne => reads_after_length_idle _ _ hp hi hk hne⟩,
        fun h => xscreensaver_watch_rfd_poll_once_t.noConfusion h⟩
      intro s' hs'
      rw [← holds_unique _ _ _ hb hs']
      exact hnl
    · rw [if_pos hi] at hstep
      refine ⟨_, _, hstep, reads_after_length _ _, fun _ => ⟨hinv, ?_⟩,
        fun h => xscreensaver_watch_rfd_poll_once_t.noConfusion h,
        fun h => xscreensaver_watch_rfd_poll_once_t.noConfusion h⟩
      rw [hm0, poll_measure_holds _ _ hb]
      have hpos : 0 < (incoming st.os.reads (255 - s.length)).length := List.length_pos.mpr hi
      have := hsz.1
      simp only [List.length_append]
      omega

theorem holds_empty (mem : List Char) (hlen : mem.length = sizeof_buffer)
    (h : strlen mem = some 0) : Holds mem [] := by
  cases mem with
  | nil => simp [strlen] at h
  | cons c cs =>
      by_cases hc : c = NUL
      · exact ⟨hlen, by simp, cs, by simp [hc]⟩
      · simp only [strlen, hc, if_false, Option.map_eq_some'] at h
        obtain ⟨a, _, ha⟩ := h
        omega

theorem lines_text_no_line (lines : List (List Char)) (h : '\n' ∉ lines_text lines) :
    lines = [] := by
  cases lines with
  | nil => rfl
  | cons l lines => exact absurd (by simp [lines_text]) h

theorem lines_run {σ : Type} (watcher : xscreensaver_watch_watcher_t σ) (P : σ → Prop)
    (A : Bool → Prop)
    (hP : ∀ c v, P c → A v → (watcher.cb c v).1 = true ∧ P (watcher.cb c v).2)
    (lines : List (List Char)) (n : Nat) (st : WatchState σ)
    (hbuf : Holds st.watch.buffer []) (hreads : partial_reads st.os.reads)
    (hsplit : pending st.os.reads = lines_text lines)
    (hgood : ∀ l ∈ lines, good_line l ∧ ∀ v, classify l = some v → A v)
    (hP0 : P st.cookie) (hn : st.os.reads.length < n) :
    ∃ st', watch_polls watcher n st = some (true, st') ∧
      notifications st'.os.log = notifications st.os.log ++ lines.filterMap classify ∧
      st'.cookie = notify_all watcher st.cookie (lines.filterMap classify) ∧
      st'.os.reads = [] ∧ Holds st'.watch.buffer [] := by
  have hI : LinesInv watcher P A (notifications st.os.log ++ lines.filterMap classify)
      (notify_all watcher st.cookie (lines.filterMap classify)) st :=
    ⟨[], lines, hbuf, by simp, hreads, by simpa using hsplit, hgood, rfl, rfl, hP0⟩
  obtain ⟨ok, st', hrun, hT, hF⟩ := watch_polls_inv watcher
    (LinesInv watcher P A (notifications st.os.log ++ lines.filterMap classify)
      (notify_all watcher st.cookie (lines.filterMap classify)))
    (fun _ => False) NoLine poll_measure
    (fun st1 h1 => lines_step watcher P A _ _ hP st1 h1)
    (fun st1 h1 => by
      obtain ⟨s, _, hH, hlen, _⟩ := h1
      rw [poll_measure_holds st1 s hH]
      simp only [sizeof_buffer]
      omega)
    n st hI
  cases ok with
  | false => exact absurd (hF rfl) id
  | true =>
      obtain ⟨⟨s, todo, hH, _, _, htext, _, hval, hfin, _⟩, hW, _, hlen⟩ := hT rfl
      have hnil : st'.os.reads = [] := List.length_eq_zero.mp (by omega)
      rw [hnil] at htext
      simp only [pending, List.append_nil] at htext
      have hno : '\n' ∉ s := hW (by omega) s hH
      have htodo : todo = [] := lines_text_no_line todo (htext ▸ hno)
      subst htodo
      simp only [lines_text] at htext
      subst htext
      refine ⟨st', hrun, ?_, ?_, hnil, hH⟩
      · simpa using hval
      · simpa [notify_all] using hfin

theorem send_string_loop_ok (sends : List (Option Nat)) (sent string : List Char)
    (h : none ∉ sends) :
    ∃ sends', none ∉ sends' ∧
      fah_control_send_string_loop sends sent string = (true, ⟨sent ++ string, sends'⟩) := by
  induction sends generalizing sent string with
  | nil =>
      cases string with
      | nil => exact ⟨[], h, by simp [fah_control_send_string_loop]⟩
      | cons c cs => exact ⟨[], h, by simp [fah_control_send_string_loop]⟩
  | cons o sends ih =>
      have ht : none ∉ sends := fun e => h (by simp [e])
      cases string with
      | nil => exact ⟨o :: sends, h, by simp [fah_control_send_string_loop]⟩
      | cons c cs =>
          cases o with
          | none => exact absurd (by simp) h
          | some k =>
              obtain ⟨sends', h1, h2⟩ := ih (sent ++ (c :: cs).take k) ((c :: cs).drop k) ht
              refine ⟨sends', h1, ?_⟩
              rw [fah_control_send_string_loop, h2, List.append_assoc, List.take_append_drop]

theorem send_string_ok (sock : Socket) (string : List Char) (h : none ∉ sock.sends) :
    ∃ sock', none ∉ sock'.sends ∧ sock'.sent = sock.sent ++ string ∧
      fah_control_send_string sock string = (true, sock') := by
  obtain ⟨sends', h1, h2⟩ := send_string_loop_ok sock.sends sock.sent string h
  exact ⟨⟨sock.sent ++ string, sends'⟩, h1, rfl, h2⟩

/-- C3: on a control client to which no slot was added, when every socket
write succeeds (a write may be partial, and is then retried),
`fah_control_send(true)` transmits exactly the bytes `unpause\n` and
`fah_control_send(false)` exactly the bytes `pause\n`. -/
theorem send_without_slots (sock : Socket) (h : none ∉ sock.sends) :
    (fah_control_send (fah_control_new sock) true).1 = true ∧
    (fah_control_send (fah_control_new sock) true).2.sock.sent
      = sock.sent ++ "unpause\n".toList ∧
    (fah_control_send (fah_control_new sock) false).1 = true ∧
    (fah_control_send (fah_control_new sock) false).2.sock.sent
      = sock.sent ++ "pause\n".toList := by
  obtain ⟨s1, _, h1, e1⟩ := send_string_ok sock "unpause\n".toList h
  obtain ⟨s2, _, h2, e2⟩ := send_string_ok sock "pause\n".toList h
  have c1 : "unpause".toList ++ "\n".toList = "unpause\n".toList := by decide
  have c2 : "pause".toList ++ "\n".toList = "pause\n".toList := by decide
  simp only [fah_control_send, fah_control_new, if_true, Bool.false_eq_true, if_false, c1, c2,
    e1, e2, h1, h2, and_self]

theorem send_without_slots_witness :
    (fah_control_send (fah_control_new ⟨[], [some 3, some 0, some 2]⟩) true).1 = true ∧
    (fah_control_send (fah_control_new ⟨[], [some 3, some 0, some 2]⟩) true).2.sock.sent
      = [] ++ "unpause\n".toList ∧
    (fah_control_send (fah_control_new ⟨[], [some 3, some 0, some 2]⟩) false).1 = true ∧
    (fah_control_send (fah_control_new ⟨[], [some 3, some 0, some 2]⟩) false).2.sock.sent
      = [] ++ "pause\n".toList :=
  send_without_slots ⟨[], [some 3, some 0, some 2]⟩ (by decide)

theorem and_bit_ne_zero (value bit : Nat) :
    value &&& (1 <<< bit) ≠ 0 ↔ value.testBit bit = true := by
  rw [Nat.one_shiftLeft, Nat.and_two_pow]
  cases h : value.testBit bit <;> simp

theorem slot_commands_nil (command : List Char) : slot_commands command [] = [] := rfl

theorem slot_commands_cons (command : List Char) (slot : Nat) (slots : List Nat) :
    slot_commands command (slot :: slots)
      = sprintf_command command slot ++ slot_commands command slots := rfl

theorem slot_commands_append (command : List Char) (a b : List Nat) :
    slot_commands command (a ++ b) = slot_commands command a ++ slot_commands command b := by
  simp [slot_commands]

theorem send_bits_ok (command : List Char) (value word : Nat) (bits : List Nat) (sock : Socket)
    (h : none ∉ sock.sends) :
    ∃ sock', none ∉ sock'.sends ∧
      sock'.sent = sock.sent ++ slot_commands command
        ((bits.filter fun b => value.testBit b).map
          fun b => (word * fah_control_bits_per_word + b) % UINT_MOD) ∧
      fah_control_send_bits command value word bits sock = (true, sock') := by
  induction bits generalizing sock with
  | nil => exact ⟨sock, h, by simp [slot_commands_nil], rfl⟩
  | cons b bits ih =>
      by_cases hb : value.testBit b = true
      · obtain ⟨s1, h1, e1, r1⟩ := send_string_ok sock
          (sprintf_command command ((word * fah_control_bits_per_word + b) % UINT_MOD)) h
        obtain ⟨s2, h2, e2, r2⟩ := ih s1 h1
        refine ⟨s2, h2, ?_, ?_⟩
        · rw [e2, e1, List.filter_cons_of_pos (by simpa using hb), List.map_cons,
            slot_commands_cons, List.append_assoc]
        · rw [fah_control_send_bits, if_pos ((and_bit_ne_zero value b).mpr hb)]
          simp only [r1]
          exact r2
      · obtain ⟨s2, h2, e2, r2⟩ := ih sock h
        refine ⟨s2, h2, ?_, ?_⟩
        · rw [e2, List.filter_cons_of_neg (by simpa using hb)]
        · rw [fah_control_send_bits, if_neg (fun e => hb ((and_bit_ne_zero value b).mp e))]
          exact r2

theorem send_words_ok (command : List Char) (slot_bits words : List Nat) (sock : Socket)
    (h : none ∉ sock.sends) :
    ∃ sock', none ∉ sock'.sends ∧
      sock'.sent = sock.sent ++ slot_commands command
        (words.flatMap fun w =>
          ((List.range fah_control_bits_per_word).filter
            fun b => (slot_bits.getD w 0).testBit b).map
            fun b => (w * fah_control_bits_per_word + b) % UINT_MOD) ∧
      fah_control_send_words command slot_bits words sock = (true, sock') := by
  induction words generalizing sock with
  | nil => exact ⟨sock, h, by simp [slot_commands_nil], rfl⟩
  | cons w words ih =>
      obtain ⟨s1, h1, e1, r1⟩ := send_bits_ok command (slot_bits.getD w 0) w
        (List.range fah_control_bits_per_word) sock h
      obtain ⟨s2, h2, e2, r2⟩ := ih s1 h1
      refine ⟨s2, h2, ?_, ?_⟩
      · rw [e2, e1, List.flatMap_cons, slot_commands_append, List.append_assoc]
      · rw [fah_control_send_words]
        simp only [r1]
        exact r2

theorem bits_per_word_eq : fah_control_bits_per_word = 32 := rfl

theorem uint_mod_eq : UINT_MOD = 4294967296 := by norm_num [UINT_MOD]

theorem enumerate_slots (slot_bits : List Nat) (n : Nat)
    (hn : n * fah_control_bits_per_word ≤ UINT_MOD) :
    ((List.range n).flatMap fun w =>
        ((List.range fah_control_bits_per_word).filter
          fun b => (slot_bits.getD w 0).testBit b).map
          fun b => (w * fah_control_bits_per_word + b) % UINT_MOD)
      = (List.range (n * fah_control_bits_per_word)).filter fun s =>
          (slot_bits.getD (s / fah_control_bits_per_word) 0).testBit
            (s % fah_control_bits_per_word) := by
  rw [bits_per_word_eq, uint_mod_eq] at *
  induction n with
  | zero => simp
  | succ n ih =>
      have ih1 := ih (by omega)
      have e : (n + 1) * 32 = n * 32 + 32 := by ring
      rw [List.range_succ, List.flatMap_append, ih1, e, List.range_add, List.filter_append,
        List.flatMap_singleton, List.filter_map]
      congr 1
      have hf : (List.range 32).filter (fun b => (slot_bits.getD n 0).testBit b)
          = (List.range 32).filter
              ((fun s => (slot_bits.getD (s / 32) 0).testBit (s % 32)) ∘ fun x => n * 32 + x) := by
        apply List.filter_congr
        intro b hb
        have hb1 : b < 32 := List.mem_range.mp hb
        have h1 : (n * 32 + b) / 32 = n := by omega
        have h2 : (n * 32 + b) % 32 = b := by omega
        simp only [Function.comp, h1, h2]
      rw [hf]
      apply List.map_congr_left
      intro b hb
      have hb1 : b < 32 := List.mem_range.mp (List.mem_filter.mp hb).1
      exact Nat.mod_eq_of_lt (by omega)

theorem getD_set (l : List Nat) (i j v : Nat) (h : i < l.length) :
    (l.set i v).getD j 0 = if i = j then v else l.getD j 0 := by
  simp only [List.getD_eq_getElem?_getD, List.getElem?_set, h, if_true]
  split <;> simp

theorem getD_append_zeros (l : List Nat) (k j : Nat) :
    (l ++ List.replicate k 0).getD j 0 = l.getD j 0 := by
  by_cases h : j < l.length
  · exact List.getD_append l _ 0 j h
  · rw [List.getD_append_right l _ 0 j (by omega), List.getD_eq_default l 0 (by omega),
      List.getD_eq_getElem?_getD, List.getElem?_replicate]
    split <;> simp

theorem set_bit_selected (X : List Nat) (slot s : Nat) (hw : slot / 32 < X.length) :
    ((X.set (slot / 32) ((X.getD (slot / 32) 0 ||| 1 <<< (slot % 32)) % UINT_MOD)).getD
        (s / 32) 0).testBit (s % 32)
      = ((X.getD (s / 32) 0).testBit (s % 32) || decide (s = slot)) := by
  rw [getD_set X _ _ _ hw]
  by_cases h : slot / 32 = s / 32
  · rw [if_pos h, UINT_MOD, Nat.testBit_mod_two_pow, Nat.testBit_or, Nat.one_shiftLeft,
      Nat.testBit_two_pow, h]
    have h32 : s % 32 < 32 := Nat.mod_lt _ (by norm_num)
    have e : decide (slot % 32 = s % 32) = decide (s = slot) := by
      apply decide_eq_decide.mpr
      constructor
      · intro h1
        omega
      · intro h1
        rw [h1]
    simp [h32, e]
  · rw [if_neg h]
    have e : decide (s = slot) = false := by
      apply decide_eq_false
      intro h1
      exact h (by rw [h1])
    simp [e]

theorem slot_add_spec (fah : fah_control) (slot : Nat) (hs : slot < UINT_MOD)
    (hlen : (fah.slot_bits.getD []).length = fah.slot_bits_words)
    (hw : fah.slot_bits_words * fah_control_bits_per_word ≤ UINT_MOD) :
    (fah_control_slot_add true fah slot).1 = true ∧
    (fah_control_slot_add true fah slot).2.sock = fah.sock ∧
    (fah_control_slot_add true fah slot).2.slot_bits.isSome = true ∧
    ((fah_control_slot_add true fah slot).2.slot_bits.getD []).length
      = (fah_control_slot_add true fah slot).2.slot_bits_words ∧
    (fah_control_slot_add true fah slot).2.slot_bits_words * fah_control_bits_per_word
      ≤ UINT_MOD ∧
    ∀ s, slot_selected (fah_control_slot_add true fah slot).2 s
      = (slot_selected fah s || decide (s = slot)) := by
  rw [bits_per_word_eq] at hw
  rw [uint_mod_eq] at hs hw
  have hword : slot / 32 < 4294967296 := by omega
  by_cases hgrow : fah.slot_bits_words ≤ slot / 32
  · have hnw : (slot / 32 + 1) % UINT_MOD = slot / 32 + 1 := by
      rw [uint_mod_eq]
      omega
    have hl : (fah.slot_bits.getD []
        ++ List.replicate (slot / 32 + 1 - fah.slot_bits_words) 0).length = slot / 32 + 1 := by
      rw [List.length_append, List.length_replicate, hlen]
      omega
    simp only [fah_control_slot_add, bits_per_word_eq, hgrow, if_true, hnw, Option.isSome_some,
      Option.getD_some, List.length_set, hl, true_and, slot_selected]
    refine ⟨by rw [uint_mod_eq]; omega, fun s => ?_⟩
    rw [set_bit_selected _ slot s (by omega), getD_append_zeros]
  · cases hb : fah.slot_bits with
    | none =>
        rw [hb] at hlen
        simp only [Option.getD_none, List.length_nil] at hlen
        omega
    | some bits =>
        rw [hb] at hlen
        simp only [Option.getD_some] at hlen
        simp only [fah_control_slot_add, bits_per_word_eq, hgrow, if_false, hb, Option.map_some',
          Option.isSome_some, Option.getD_some, List.length_set, hlen, true_and, slot_selected]
        refine ⟨by rw [uint_mod_eq]; omega, fun s => ?_⟩
        rw [set_bit_selected _ slot s (by omega)]

theorem add_all_spec (slots : List Nat) (fah : fah_control) (hs : ∀ s ∈ slots, s < UINT_MOD)
    (hlen : (fah.slot_bits.getD []).length = fah.slot_bits_words)
    (hw : fah.slot_bits_words * fah_control_bits_per_word ≤ UINT_MOD) :
    (add_all fah slots).sock = fah.sock ∧
    (slots ≠ [] → (add_all fah slots).slot_bits.isSome = true) ∧
    ((add_all fah slots).slot_bits.getD []).length = (add_all fah slots).slot_bits_words ∧
    (add_all fah slots).slot_bits_words * fah_control_bits_per_word ≤ UINT_MOD ∧
    ∀ s, slot_selected (add_all fah slots) s = (slot_selected fah s || decide (s ∈ slots)) := by
  induction slots generalizing fah with
  | nil => simp [add_all, hlen, hw]
  | cons x slots ih =>
      obtain ⟨_, h2, h3, h4, h5, h6⟩ := slot_add_spec fah x (hs x (by simp)) hlen hw
      obtain ⟨i1, i2, i3, i4, i5⟩ :=
        ih (fah_control_slot_add true fah x).2 (fun s h => hs s (by simp [h])) h4 h5
      have e : add_all fah (x :: slots) = add_all (fah_control_slot_add true fah x).2 slots := rfl
      rw [e]
      refine ⟨i1.trans h2, fun _ => ?_, i3, i4, fun s => ?_⟩
      · cases slots with
        | nil => simpa [add_all] using h3
        | cons y ys => exact i2 (by simp)
      · rw [i5 s, h6 s]
        by_cases h1 : s = x <;> simp [h1, Bool.or_assoc]

theorem slot_selected_bound (fah : fah_control) (s : Nat) (h : slot_selected fah s = true) :
    s < (fah.slot_bits.getD []).length * fah_control_bits_per_word := by
  rw [bits_per_word_eq]
  by_contra hc
  have h1 : (fah.slot_bits.getD []).length ≤ s / 32 := by omega
  rw [slot_selected, bits_per_word_eq, List.getD_eq_default _ 0 h1] at h
  simp at h

/-- C2: for every non-empty sequence of slot ids passed to
`fah_control_slot_add` (any order, repetitions allowed, every `realloc`
succeeding) and every run flag, when all socket writes succeed
`fah_control_send` transmits exactly one command `<command> <slot>\n` per
distinct slot id, in ascending order of slot id, and nothing else; `<command>`
is `unpause` when `run` is set and `pause` otherwise, and the slot is written in
decimal. -/
theorem send_with_slots (sock : Socket) (slots : List Nat) (run : Bool)
    (h : none ∉ sock.sends) (hne : slots ≠ []) (hs : ∀ s ∈ slots, s < UINT_MOD) :
    (fah_control_send (add_all (fah_control_new sock) slots) run).1 = true ∧
    (fah_control_send (add_all (fah_control_new sock) slots) run).2.sock.sent
      = sock.sent ++ slot_commands (if run then "unpause".toList else "pause".toList)
          (slots.toFinset.sort (· ≤ ·)) := by
  obtain ⟨a1, a2, a3, a4, a5⟩ := add_all_spec slots (fah_control_new sock) hs rfl
    (by simp [fah_control_new])
  have a2' := a2 hne
  cases hb : (add_all (fah_control_new sock) slots).slot_bits with
  | none => simp [hb] at a2'
  | some bits =>
      rw [hb] at a3
      simp only [Option.getD_some] at a3
      obtain ⟨sock', _, e1, r1⟩ := send_words_ok
        (if run then "unpause".toList else "pause".toList) bits
        (List.range (add_all (fah_control_new sock) slots).slot_bits_words)
        (add_all (fah_control_new sock) slots).sock (a1 ▸ h)
      rw [enumerate_slots bits _ a4] at e1
      have hsel : (fun s => (bits.getD (s / fah_control_bits_per_word) 0).testBit
          (s % fah_control_bits_per_word))
          = slot_selected (add_all (fah_control_new sock) slots) := by
        funext s
        simp [slot_selected, hb]
      rw [hsel] at e1
      have hmem : ∀ s, s ∈ (List.range ((add_all (fah_control_new sock) slots).slot_bits_words
          * fah_control_bits_per_word)).filter (slot_selected (add_all (fah_control_new sock) slots))
          ↔ s ∈ slots.toFinset.sort (· ≤ ·) := by
        intro s
        have hnew : slot_selected (fah_control_new sock) s = false := by
          simp [slot_selected, fah_control_new]
        rw [List.mem_filter, List.mem_range, Finset.mem_sort, List.mem_toFinset, a5 s, hnew]
        constructor
        · intro hh
          simpa using hh.2
        · intro hh
          have hsel1 : slot_selected (add_all (fah_control_new sock) slots) s = true := by
            rw [a5 s, hnew]
            simpa using hh
          have := slot_selected_bound _ s hsel1
          rw [hb] at this
          simp only [Option.getD_some, a3] at this
          exact ⟨this, by simpa using hh⟩
      have hsorted : List.Sorted (· ≤ ·) ((List.range
          ((add_all (fah_control_new sock) slots).slot_bits_words
          * fah_control_bits_per_word)).filter
            (slot_selected (add_all (fah_control_new sock) slots))) :=
        ((List.sorted_lt_range _).filter _).le_of_lt
      have hnodup : ((List.range ((add_all (fah_control_new sock) slots).slot_bits_words
          * fah_control_bits_per_word)).filter
            (slot_selected (add_all (fah_control_new sock) slots))).Nodup :=
        (List.nodup_range _).filter _
      have heq := List.eq_of_perm_of_sorted
        ((List.perm_ext_iff_of_nodup hnodup (Finset.sort_nodup _ _)).mpr hmem) hsorted
        (Finset.sort_sorted _ _)
      rw [heq, a1] at e1
      have hres : fah_control_send (add_all (fah_control_new sock) slots) run
          = (true, { add_all (fah_control_new sock) slots with sock := sock' }) := by
        simp only [fah_control_send, hb, r1]
      rw [hres]
      exact ⟨rfl, e1⟩

theorem send_with_slots_witness :
    ((fah_control_send (add_all (fah_control_new ⟨[], [some 2]⟩) [3, 1, 2]) false).1 = true ∧
    (fah_control_send (add_all (fah_control_new ⟨[], [some 2]⟩) [3, 1, 2]) false).2.sock.sent
      = [] ++ slot_commands (if false then "unpause".toList else "pause".toList)
          (([3, 1, 2] : List Nat).toFinset.sort (· ≤ ·))) ∧
    (fah_control_send (add_all (fah_control_new ⟨[], [some 2]⟩) [3, 1, 2]) false).2.sock.sent
      = "pause 1\npause 2\npause 3\n".toList ∧
    (fah_control_send (add_all (fah_control_new ⟨[], []⟩) [3, 1, 3, 2, 1]) true).2.sock.sent
      = "unpause 1\nunpause 2\nunpause 3\n".toList :=
  ⟨send_with_slots ⟨[], [some 2]⟩ [3, 1, 2] false (by decide) (by decide) (by decide),
    by decide, by decide⟩

/-! ## The wiring of `main` -/

theorem send_all_slots (fah : fah_control) (run : Bool) (h : none ∉ fah.sock.sends)
    (hb : fah.slot_bits = none) :
    ∃ sock', none ∉ sock'.sends ∧
      sock'.sent = fah.sock.sent
        ++ ((if run then "unpause".toList else "pause".toList) ++ "\n".toList) ∧
      fah_control_send fah run = (true, { fah with sock := sock' }) := by
  obtain ⟨s1, h1, e1, r1⟩ := send_string_ok fah.sock
    ((if run then "unpause".toList else "pause".toList) ++ "\n".toList) h
  exact ⟨s1, h1, e1, by simp only [fah_control_send, hb, r1]⟩

theorem screen_saver_cb_ok (c : MainWorld) (v : Bool)
    (h : none ∉ c.fah.sock.sends ∧ c.fah.slot_bits = none) :
    (main_watcher.cb c v).1 = true ∧
      (none ∉ (main_watcher.cb c v).2.fah.sock.sends ∧
        (main_watcher.cb c v).2.fah.slot_bits = none) := by
  cases v with
  | false => exact ⟨rfl, h⟩
  | true =>
      obtain ⟨s1, h1, _, r1⟩ := send_all_slots c.fah true h.1 h.2
      have e : main_watcher.cb c true
          = ((fah_control_send c.fah true).1,
              ⟨c.stdout ++ ["Activating Folding@Home."], (fah_control_send c.fah true).2⟩) := rfl
      rw [e, r1]
      exact ⟨rfl, h1, h.2⟩

set_option maxRecDepth 100000 in
/-- C4 as stated fails: with no slots registered and the line `LOCK 12345\n`
arriving in one read, the callback receives `true`, and the bytes on the
control socket are `unpause\n`, not `pause\n`. -/
theorem lock_line_does_not_send_pause :
    (watch_polls main_watcher 1
        ⟨⟨1234, 3, NUL :: List.replicate 255 'x'⟩,
          ⟨[.data "LOCK 12345\n".toList], 0, []⟩,
          ⟨[], fah_control_new ⟨[], []⟩⟩⟩).map
        (fun r => (r.1, notifications r.2.os.log, r.2.cookie.fah.sock.sent))
      = some (true, [true], "unpause\n".toList) ∧
    "unpause\n".toList ≠ "pause\n".toList := by
  decide

/-- C4, amended: with no slots registered, when the watcher receives the line
`LOCK 12345\n` (in whatever pieces) it invokes `screen_saver_cb` with
`active = true`, the handler prints its message and calls `fah_control_send`
with `run = true`, and when the socket writes succeed the bytes transmitted on
the control socket are exactly `unpause\n`. -/
theorem lock_line_sends_unpause (watch : xscreensaver_watch) (errno : Nat)
    (reads : List ReadResult) (n : Nat) (out : List String) (sock : Socket)
    (hsock : none ∉ sock.sends)
    (hlen : watch.buffer.length = sizeof_buffer) (hempty : strlen watch.buffer = some 0)
    (hreads : partial_reads reads) (hsplit : pending reads = "LOCK 12345\n".toList)
    (hn : reads.length < n) :
    ∃ st', watch_polls main_watcher n ⟨watch, ⟨reads, errno, []⟩, ⟨out, fah_control_new sock⟩⟩
        = some (true, st') ∧
      notifications st'.os.log = [true] ∧
      st'.cookie = (screen_saver_cb ⟨out, fah_control_new sock⟩ true).2 ∧
      st'.cookie.fah = (fah_control_send (fah_control_new sock) true).2 ∧
      st'.cookie.stdout = out ++ ["Activating Folding@Home."] ∧
      st'.cookie.fah.sock.sent = sock.sent ++ "unpause\n".toList := by
  have hline : ∀ l ∈ ["LOCK 12345".toList], good_line l ∧ ∀ v, classify l = some v → True := by
    intro l hl
    simp only [List.mem_singleton] at hl
    subst hl
    exact ⟨⟨by decide, by decide, by decide⟩, fun _ _ => trivial⟩
  obtain ⟨st', h1, h2, h3, _, _⟩ := lines_run main_watcher
    (fun c => none ∉ c.fah.sock.sends ∧ c.fah.slot_bits = none) (fun _ => True)
    (fun c v hc _ => screen_saver_cb_ok c v hc) ["LOCK 12345".toList] n
    ⟨watch, ⟨reads, errno, []⟩, ⟨out, fah_control_new sock⟩⟩
    (holds_empty _ hlen hempty) hreads hsplit hline ⟨hsock, rfl⟩ hn
  have hc : ["LOCK 12345".toList].filterMap classify = [true] := by decide
  rw [hc] at h2 h3
  obtain ⟨s1, _, e1, r1⟩ := send_all_slots (fah_control_new sock) true hsock rfl
  have hcb : (screen_saver_cb ⟨out, fah_control_new sock⟩ true).2
      = ⟨out ++ ["Activating Folding@Home."], (fah_control_send (fah_control_new sock) true).2⟩ :=
    rfl
  have h3' : st'.cookie = (screen_saver_cb ⟨out, fah_control_new sock⟩ true).2 := h3
  refine ⟨st', h1, by simpa [notifications] using h2, h3', ?_, ?_, ?_⟩
  · rw [h3', hcb]
  · rw [h3', hcb]
  · rw [h3', hcb, r1]
    exact e1

theorem lock_line_sends_unpause_witness :
    ∃ st', watch_polls main_watcher 3
        ⟨⟨1234, 3, NUL :: List.replicate 255 'x'⟩,
          ⟨[.data "LOCK 1".toList, .data "2345\n".toList], 0, []⟩,
          ⟨[], fah_control_new ⟨[], [some 4]⟩⟩⟩
        = some (true, st') ∧
      notifications st'.os.log = [true] ∧
      st'.cookie = (screen_saver_cb ⟨[], fah_control_new ⟨[], [some 4]⟩⟩ true).2 ∧
      st'.cookie.fah = (fah_control_send (fah_control_new ⟨[], [some 4]⟩) true).2 ∧
      st'.cookie.stdout = [] ++ ["Activating Folding@Home."] ∧
      st'.cookie.fah.sock.sent = [] ++ "unpause\n".toList :=
  lock_line_sends_unpause ⟨1234, 3, NUL :: List.replicate 255 'x'⟩ 0
    [.data "LOCK 1".toList, .data "2345\n".toList] 3 [] ⟨[], [some 4]⟩ (by decide)
    (by simp only [List.length_cons, List.length_replicate, sizeof_buffer])
    (by rw [strlen]; exact if_pos rfl)
    (by
      intro r hr
      simp only [List.mem_cons, List.mem_singleton, List.not_mem_nil, or_false] at hr
      rcases hr with rfl | rfl
      · exact Or.inr ⟨_, by decide, rfl⟩
      · exact Or.inr ⟨_, by decide, rfl⟩)
    (by decide) (by decide)

set_option maxRecDepth 100000 in
/-- C5 as stated fails: when the line `UNBLANK\n` arrives in an empty buffer,
the step that eats it calls the callback with no value at all, so it is not
classified as deactivation. -/
theorem bare_unblank_is_not_deactivation :
    (xscreensaver_watch_rfd_poll_once (⟨fun c _ => (true, c)⟩ : xscreensaver_watch_watcher_t Unit)
        ⟨⟨1234, 3, NUL :: List.replicate 255 'x'⟩,
          ⟨[.data "UNBLANK\n".toList], 0, []⟩, ()⟩).map
        (fun r => (r.1, notifications r.2.os.log, strlen r.2.watch.buffer))
      = some (.AGAIN, [], some 0) ∧
    ([] : List Bool) ≠ [false] := by
  decide

/-- C5, amended: when the child emits the line `UNBLANK\n` (no space after the
word) into an empty buffer, in whatever pieces, the watcher eats the line
without classifying it: the notification callback is not invoked, whatever the
callback is, and the buffer is empty again. -/
theorem bare_unblank_is_ignored {σ : Type} (watcher : xscreensaver_watch_watcher_t σ)
    (watch : xscreensaver_watch) (cookie : σ) (errno : Nat) (reads : List ReadResult) (n : Nat)
    (hlen : watch.buffer.length = sizeof_buffer) (hempty : strlen watch.buffer = some 0)
    (hreads : partial_reads reads) (hsplit : pending reads = "UNBLANK\n".toList)
    (hn : reads.length < n) :
    ∃ st', watch_polls watcher n ⟨watch, ⟨reads, errno, []⟩, cookie⟩ = some (true, st') ∧
      notifications st'.os.log = [] ∧ st'.cookie = cookie ∧
      st'.os.reads = [] ∧ strlen st'.watch.buffer = some 0 := by
  have hc : classify "UNBLANK".toList = none := by decide
  have hline : ∀ l ∈ ["UNBLANK".toList],
      good_line l ∧ ∀ v, classify l = some v → False := by
    intro l hl
    simp only [List.mem_singleton] at hl
    subst hl
    refine ⟨⟨by decide, by decide, by decide⟩, fun v hv => ?_⟩
    rw [hc] at hv
    exact Option.noConfusion hv
  obtain ⟨st', h1, h2, h3, h4, h5⟩ := lines_run watcher (fun _ => True) (fun _ => False)
    (fun _ _ _ hA => hA.elim) ["UNBLANK".toList] n ⟨watch, ⟨reads, errno, []⟩, cookie⟩
    (holds_empty _ hlen hempty) hreads hsplit hline trivial hn
  have hf : ["UNBLANK".toList].filterMap classify = [] := by decide
  rw [hf] at h2 h3
  exact ⟨st', h1, by simpa [notifications] using h2, h3, h4,
    by simpa using holds_strlen _ _ h5⟩

theorem bare_unblank_is_ignored_witness :
    ∃ st', watch_polls (⟨fun c _ => (false, c)⟩ : xscreensaver_watch_watcher_t Unit) 4
        ⟨⟨1234, 3, NUL :: List.replicate 255 'x'⟩,
          ⟨[.data "UNBL".toList, .fail EAGAIN, .data "ANK\n".toList], 0, []⟩, ()⟩
        = some (true, st') ∧
      notifications st'.os.log = [] ∧ st'.cookie = () ∧
      st'.os.reads = [] ∧ strlen st'.watch.buffer = some 0 :=
  bare_unblank_is_ignored ⟨fun c _ => (false, c)⟩ ⟨1234, 3, NUL :: List.replicate 255 'x'⟩ () 0
    [.data "UNBL".toList, .fail EAGAIN, .data "ANK\n".toList] 4
    (by simp only [List.length_cons, List.length_replicate, sizeof_buffer])
    (by rw [strlen]; exact if_pos rfl)
    (by
      intro r hr
      simp only [List.mem_cons, List.mem_singleton, List.not_mem_nil, or_false] at hr
      rcases hr with rfl | rfl | rfl
      · exact Or.inr ⟨_, by decide, rfl⟩
      · exact Or.inl rfl
      · exact Or.inr ⟨_, by decide, rfl⟩)
    (by decide) (by decide)

/-! ## A line that does not fit -/

theorem incoming_length_le (reads : List ReadResult) (count : Nat) :
    (incoming reads count).length ≤ count := by
  cases reads with
  | nil => simp [incoming]
  | cons r rs =>
      cases r with
      | fail e => simp [incoming]
      | data bytes => simp [incoming, List.length_take]

theorem take_drop_at_length {α : Type} (a b : List α) (k : Nat) (h : a.length = k) :
    (a ++ b).take k = a ∧ (a ++ b).drop k = b := by
  subst h
  simp

theorem overlong_step {σ : Type} (watcher : xscreensaver_watch_watcher_t σ) (text : List Char)
    (cookie : σ) (hnl : '\n' ∉ text) (h0 : NUL ∉ text)
    (st : WatchState σ) (hI : OverlongInv text cookie st) :
    ∃ r st', xscreensaver_watch_rfd_poll_once watcher st = some (r, st') ∧
      st'.os.reads.length ≤ st.os.reads.length ∧
      (r = .AGAIN → OverlongInv text cookie st' ∧ poll_measure st' < poll_measure st) ∧
      (r = .WAIT → OverlongInv text cookie st' ∧ True ∧
        (st.os.reads ≠ [] → st'.os.reads.length < st.os.reads.length)) ∧
      (r = .ERROR → OverlongEnd text cookie st') := by
  obtain ⟨s, hH, hlen, hp, htext, hnot, hck⟩ := hI
  have hk : 0 < 255 - s.length := by omega
  have htext1 : (s ++ incoming st.os.reads (255 - s.length))
      ++ pending (reads_after st.os.reads (255 - s.length)) = text := by
    rw [List.append_assoc, pending_after]
    exact htext
  have hsub : ∀ c, c ∈ s ++ incoming st.os.reads (255 - s.length) → c ∈ text := by
    intro c hc
    rw [← htext1]
    exact List.mem_append_left _ hc
  have hnul : NUL ∉ incoming st.os.reads (255 - s.length) :=
    fun hm => h0 (hsub _ (List.mem_append_right _ hm))
  have hnl1 : '\n' ∉ s ++ incoming st.os.reads (255 - s.length) := fun hm => hnl (hsub _ hm)
  have hsz := reads_size_after st.os.reads (255 - s.length) hp hk
  have hm0 := poll_measure_holds st s hH
  have hle := incoming_length_le st.os.reads (255 - s.length)
  obtain ⟨b, hb, hstep⟩ := step_no_line watcher st s hH hlen hp hnul hnl1
  by_cases h255 : (s ++ incoming st.os.reads (255 - s.length)).length = 255
  · rw [if_pos h255] at hstep
    refine ⟨_, _, hstep, reads_after_length _ _,
      fun h => xscreensaver_watch_rfd_poll_once_t.noConfusion h,
      fun h => xscreensaver_watch_rfd_poll_once_t.noConfusion h, fun _ => ?_⟩
    have htd := take_drop_at_length _ (pending (reads_after st.os.reads (255 - s.length))) 255 h255
    rw [htext1] at htd
    have htake : text.take 255 = s ++ incoming st.os.reads (255 - s.length) := htd.1
    have hdrop : text.drop 255 = pending (reads_after st.os.reads (255 - s.length)) := htd.2
    refine ⟨rfl, ?_, hck, ?_, hdrop.symm, st.os.log, st.watch.rfd, 255 - s.length, rfl, hk⟩
    · simp only [notifications_append, notifications_read, List.append_nil]
      exact hnot
    · rw [htake]
      exact hb
  · rw [if_neg h255] at hstep
    have hshort : (s ++ incoming st.os.reads (255 - s.length)).length < 255 := by
      simp only [List.length_append] at h255 ⊢
      omega
    have hinv : OverlongInv text cookie
        { watch := { st.watch with buffer := b }
          os := { reads := reads_after st.os.reads (255 - s.length)
                  errno := errno_after st.os.reads st.os.errno
                  log := st.os.log ++ [.read st.watch.rfd (255 - s.length)] }
          cookie := st.cookie } := by
      refine ⟨_, hb, hshort, partial_reads_after _ _ hp, htext1, ?_, hck⟩
      simp only [notifications_append, notifications_read, List.append_nil]
      exact hnot
    by_cases hi : incoming st.os.reads (255 - s.length) = []
    · rw [if_neg (by simp [hi])] at hstep
      exact ⟨_, _, hstep, reads_after_length _ _,
        fun h => xscreensaver_watch_rfd_poll_once_t.noConfusion h,
        fun _ => ⟨hinv, trivial, fun hne => reads_after_length_idle _ _ hp hi hk hne⟩,
        fun h => xscreensaver_watch_rfd_poll_once_t.noConfusion h⟩
    · rw [if_pos hi] at hstep
      refine ⟨_, _, hstep, reads_after_length _ _, fun _ => ⟨hinv, ?_⟩,
        fun h => xscreensaver_watch_rfd_poll_once_t.noConfusion h,
        fun h => xscreensaver_watch_rfd_poll_once_t.noConfusion h⟩
      rw [hm0, poll_measure_holds _ _ hb]
      have hpos : 0 < (incoming st.os.reads (255 - s.length)).length := List.length_pos.mpr hi
      have := hsz.1
      simp only [List.length_append]
      omega

/-- C6: for every text of at least 256 bytes (the buffer capacity) without
newline and without NUL, delivered from an empty buffer by any sequence of
positive-length partial reads with would-block results in between, the
readiness callback returns failure with `errno == EPROTO` in the step whose read
brings the buffer to 255 bytes; the notification callback is never invoked, and
no byte is discarded: the buffer holds the first 255 bytes of the text and the
rest is still in the pipe. -/
theorem overlong_line_is_protocol_error {σ : Type} (watcher : xscreensaver_watch_watcher_t σ)
    (watch : xscreensaver_watch) (cookie : σ) (errno : Nat) (text : List Char)
    (reads : List ReadResult) (n : Nat)
    (hlen : watch.buffer.length = sizeof_buffer) (hempty : strlen watch.buffer = some 0)
    (hlong : sizeof_buffer ≤ text.length) (hnl : '\n' ∉ text) (h0 : NUL ∉ text)
    (hreads : partial_reads reads) (hsplit : pending reads = text) (hn : reads.length < n) :
    ∃ st', watch_polls watcher n ⟨watch, ⟨reads, errno, []⟩, cookie⟩ = some (false, st') ∧
      st'.os.errno = EPROTO ∧ notifications st'.os.log = [] ∧ st'.cookie = cookie ∧
      strlen st'.watch.buffer = some 255 ∧ st'.watch.buffer.take 255 = text.take 255 ∧
      pending st'.os.reads = text.drop 255 ∧
      ∃ earlier fd count, st'.os.log = earlier ++ [.read fd count] ∧ 0 < count := by
  have hI : OverlongInv text cookie ⟨watch, ⟨reads, errno, []⟩, cookie⟩ :=
    ⟨[], holds_empty _ hlen hempty, by simp, hreads, by simpa using hsplit, rfl, rfl⟩
  obtain ⟨ok, st', hrun, hT, hF⟩ := watch_polls_inv watcher (OverlongInv text cookie)
    (OverlongEnd text cookie) (fun _ => True) poll_measure
    (fun st1 h1 => overlong_step watcher text cookie hnl h0 st1 h1)
    (fun st1 h1 => by
      obtain ⟨s, hH, hl, _⟩ := h1
      rw [poll_measure_holds st1 s hH]
      simp only [sizeof_buffer]
      omega)
    n _ hI
  cases ok with
  | true =>
      exfalso
      obtain ⟨⟨s, _, hs, _, htext, _, _⟩, _, _, hl⟩ := hT rfl
      have hnil : st'.os.reads = [] := List.length_eq_zero.mp (by simp only [] at hl; omega)
      rw [hnil] at htext
      simp only [pending, List.append_nil] at htext
      rw [← htext] at hlong
      simp only [sizeof_buffer] at hlong
      omega
  | false =>
      obtain ⟨e1, e2, e3, e4, e5, e6⟩ := hF rfl
      have hl255 : (text.take 255).length = 255 := by
        rw [List.length_take]
        simp only [sizeof_buffer] at hlong
        omega
      refine ⟨st', hrun, e1, e2, e3, ?_, ?_, e5, e6⟩
      · rw [holds_strlen _ _ e4, hl255]
      · obtain ⟨_, _, junk, hm⟩ := e4
        rw [hm]
        exact (take_drop_at_length _ _ 255 hl255).1

theorem overlong_line_is_protocol_error_witness :
    ∃ st', watch_polls (⟨fun c _ => (true, c)⟩ : xscreensaver_watch_watcher_t Unit) 4
        ⟨⟨1234, 3, NUL :: List.replicate 255 'x'⟩,
          ⟨[.data (List.replicate 100 'a'), .fail EAGAIN, .data (List.replicate 200 'a')], 0, []⟩,
          ()⟩ = some (false, st') ∧
      st'.os.errno = EPROTO ∧ notifications st'.os.log = [] ∧ st'.cookie = () ∧
      strlen st'.watch.buffer = some 255 ∧
      st'.watch.buffer.take 255 = (List.replicate 100 'a' ++ List.replicate 200 'a').take 255 ∧
      pending st'.os.reads = (List.replicate 100 'a' ++ List.replicate 200 'a').drop 255 ∧
      ∃ earlier fd count, st'.os.log = earlier ++ [.read fd count] ∧ 0 < count :=
  overlong_line_is_protocol_error ⟨fun c _ => (true, c)⟩
    ⟨1234, 3, NUL :: List.replicate 255 'x'⟩ () 0
    (List.replicate 100 'a' ++ List.replicate 200 'a')
    [.data (List.replicate 100 'a'), .fail EAGAIN, .data (List.replicate 200 'a')] 4
    (by simp only [List.length_cons, List.length_replicate, sizeof_buffer])
    (by rw [strlen]; exact if_pos rfl)
    (by simp only [List.length_append, List.length_replicate, sizeof_buffer]; omega)
    (by
      intro h
      rcases List.mem_append.mp h with h | h <;>
        exact absurd (List.eq_of_mem_replicate h) (by decide))
    (by
      intro h
      rcases List.mem_append.mp h with h | h <;>
        exact absurd (List.eq_of_mem_replicate h) (by decide))
    (by
      intro r hr
      simp only [List.mem_cons, List.mem_singleton, List.not_mem_nil, or_false] at hr
      rcases hr with rfl | rfl | rfl
      · exact Or.inr ⟨_, fun e => absurd (congrArg List.length e)
          (by rw [List.length_replicate, List.length_nil]; omega), rfl⟩
      · exact Or.inl rfl
      · exact Or.inr ⟨_, fun e => absurd (congrArg List.length e)
          (by rw [List.length_replicate, List.length_nil]; omega), rfl⟩)
    (by simp only [pending, List.append_nil]) (by decide)

/-! ## The reactor -/

/-- The shape of what `poller_run` records: the callbacks recorded are those of
the first events, in order; a recorded result other than `true` is the last
one; a recorded `false` goes with the result `false`; the result `false` goes
with a recorded `false` or with a failed `epoll_wait`; and the result `true`
goes with a count of zero. -/
theorem poller_run_invoked_shape {σ : Type} (evs : List (epoll_wait_t σ))
    (s : RunState σ) :
    evs.take (poller_run evs s).invoked.length
      = (poller_run evs s).invoked.map (fun d => epoll_wait_t.ready d.1) ∧
    (∀ a x b, (poller_run evs s).invoked.map Prod.snd = a ++ x :: b → x ≠ some true → b = []) ∧
    (∀ a, (poller_run evs s).invoked.map Prod.snd = a ++ [some false] →
      (poller_run evs s).outcome = .returned false) ∧
    ((poller_run evs s).outcome = .returned false →
      (∃ a, (poller_run evs s).invoked.map Prod.snd = a ++ [some false]) ∨
      (∃ e, evs[(poller_run evs s).invoked.length]? = some (.error e) ∧
        (poller_run evs s).final.poller.count ≠ 0)) ∧
    (∀ e, evs[(poller_run evs s).invoked.length]? = some (.error e) →
      (∀ x ∈ (poller_run evs s).invoked.map Prod.snd, x = some true) →
      (poller_run evs s).final.poller.count ≠ 0 →
      (poller_run evs s).outcome = .returned false) ∧
    ((poller_run evs s).outcome = .returned true →
      (poller_run evs s).final.poller.count = 0) := by
  induction evs generalizing s with
  | nil =>
      by_cases hc : s.poller.count = 0 <;> simp [poller_run, hc]
  | cons ev evs ih =>
      by_cases hc : s.poller.count = 0
      · simp [poller_run, hc]
      · cases ev with
        | error e => simp [poller_run, hc]
        | ready p =>
            cases hcb : p.cb s with
            | none =>
                simp only [poller_run, hc, ne_eq, not_false_eq_true, if_true, hcb]
                refine ⟨by simp, ?_, ?_, ?_, ?_, ?_⟩
                · intro a x b h _
                  cases a with
                  | nil => simpa using (List.cons.inj h).2.symm
                  | cons y a =>
                      have := (List.cons.inj h).2
                      simp at this
                · intro a h
                  cases a with
                  | nil => simp at h
                  | cons y a =>
                      have := (List.cons.inj h).2
                      simp at this
                · intro h
                  simp at h
                · intro e _ h
                  simp at h
                · intro h
                  simp at h
            | some r =>
                obtain ⟨ok, s1⟩ := r
                cases ok with
                | false =>
                    simp only [poller_run, hc, ne_eq, not_false_eq_true, if_true, hcb]
                    refine ⟨by simp, ?_, ?_, ?_, ?_, ?_⟩
                    · intro a x b h _
                      cases a with
                      | nil => simpa using (List.cons.inj h).2.symm
                      | cons y a =>
                          have := (List.cons.inj h).2
                          simp at this
                    · intro _ _
                      trivial
                    · intro _
                      exact Or.inl ⟨[], rfl⟩
                    · intro _ _ _ _
                      trivial
                    · intro h
                      simp at h
                | true =>
                    obtain ⟨i1, i2, i3, i4, i5, i6⟩ := ih s1
                    simp only [poller_run, hc, ne_eq, not_false_eq_true, if_true, hcb,
                      List.length_cons, List.map_cons, List.take_succ_cons,
                      List.getElem?_cons_succ]
                    refine ⟨by rw [i1], ?_, ?_, ?_, ?_, i6⟩
                    · intro a x b h hx
                      cases a with
                      | nil =>
                          have := (List.cons.inj h).1
                          exact absurd this.symm hx
                      | cons y a => exact i2 a x b (List.cons.inj h).2 hx
                    · intro a h
                      cases a with
                      | nil =>
                          have := (List.cons.inj h).1
                          simp at this
                      | cons y a => exact i3 a (List.cons.inj h).2
                    · intro h
                      rcases i4 h with ⟨a, ha⟩ | ⟨e, he⟩
                      · exact Or.inl ⟨some true :: a, by rw [ha]; rfl⟩
                      · exact Or.inr ⟨e, he⟩
                    · intro e he hall hcount
                      exact i5 e he (fun x hx => hall x (List.mem_cons_of_mem _ hx)) hcount

/-! ## The buffer in general -/

theorem strlen_some (mem : List Char) (n : Nat) (h : strlen mem = some n) :
    ∃ s junk, mem = s ++ NUL :: junk ∧ NUL ∉ s ∧ s.length = n := by
  induction mem generalizing n with
  | nil => simp [strlen] at h
  | cons c cs ih =>
      by_cases hc : c = NUL
      · simp only [strlen, hc, if_true, Option.some.injEq] at h
        exact ⟨[], cs, by simp [hc], by simp, by simpa using h⟩
      · simp only [strlen, hc, if_false, Option.map_eq_some'] at h
        obtain ⟨m, hm, hmn⟩ := h
        obtain ⟨s, junk, e, h0, hl⟩ := ih m hm
        refine ⟨c :: s, junk, by simp [e], ?_, by simp [hl, hmn]⟩
        intro hmem
        rcases List.mem_cons.mp hmem with h1 | h1
        · exact hc h1.symm
        · exact h0 h1

theorem buffer_ok_holds (mem : List Char) (h : buffer_ok mem) :
    ∃ s, Holds mem s ∧ strlen mem = some s.length := by
  obtain ⟨hl, n, hn, _⟩ := h
  obtain ⟨s, junk, e, h0, hs⟩ := strlen_some mem n hn
  exact ⟨s, ⟨hl, h0, junk, e⟩, by rw [hn, hs]⟩

theorem holds_buffer_ok (mem s : List Char) (h : Holds mem s) : buffer_ok mem :=
  ⟨h.1, s.length, holds_strlen mem s h, by
    have := holds_length mem s h
    simp only [sizeof_buffer]
    omega⟩

theorem holds_of_mem (mem : List Char) (hl : mem.length = sizeof_buffer) (h : NUL ∈ mem) :
    ∃ s, Holds mem s := by
  obtain ⟨s, junk, e, h0⟩ := List.eq_append_cons_of_mem h
  exact ⟨s, hl, h0, junk, e⟩

theorem read_requests_append (a b : List Event) :
    read_requests (a ++ b) = read_requests a ++ read_requests b := by
  simp [read_requests, List.filterMap_append]

theorem read_general {σ : Type} (st : WatchState σ) (s : List Char)
    (hH : Holds st.watch.buffer s) :
    ∃ ph, poll_once_read st = some ph ∧ (∃ s', Holds ph.state.watch.buffer s') ∧
      (∃ new, ph.state.os.log = st.os.log ++ new ∧
        ∀ c ∈ read_requests new, c + s.length ≤ 255) ∧
      ∀ st1 did_work s1, ph = .go st1 did_work → Holds st1.watch.buffer s1 →
        2 * reads_size st1.os.reads + s1.length + (if did_work then 1 else 0)
          ≤ 2 * reads_size st.os.reads + s.length := by
  have h255 := holds_length _ _ hH
  by_cases hfull : s.length = 255
  · refine ⟨_, poll_once_read_full st s hH hfull, ⟨s, hH⟩, ⟨[], by simp [Phase.state],
      by simp [read_requests]⟩, ?_⟩
    intro st1 dw s1 e hs1
    cases e
    rw [holds_unique _ _ _ hs1 hH]
    simp
  · have hlen : s.length < 255 := by omega
    have hreq : ∀ c ∈ read_requests [Event.read st.watch.rfd (255 - s.length)],
        c + s.length ≤ 255 := by
      intro c hc
      simp only [read_requests, List.filterMap_cons, List.filterMap_nil,
        List.mem_singleton] at hc
      omega
    have hreq2 : ∀ c ∈ read_requests
        [Event.read st.watch.rfd (255 - s.length), Event.waitpid st.watch.pid],
        c + s.length ≤ 255 := by
      intro c hc
      simp only [read_requests, List.filterMap_cons, List.filterMap_nil,
        List.mem_singleton] at hc
      omega
    cases hr : st.os.reads with
    | nil =>
        refine ⟨_, poll_once_read_empty st s hH hlen hr, ⟨s, hH⟩, ⟨_, rfl, hreq⟩, ?_⟩
        intro st1 dw s1 e hs1
        cases e
        rw [holds_unique _ _ _ hs1 hH]
        simp [reads_size]
    | cons r rest =>
        cases r with
        | fail e =>
            by_cases he : e = EAGAIN
            · subst he
              refine ⟨_, poll_once_read_eagain st s rest hH hlen hr, ⟨s, hH⟩, ⟨_, rfl, hreq⟩, ?_⟩
              intro st1 dw s1 e hs1
              cases e
              rw [holds_unique _ _ _ hs1 hH]
              simp only [reads_size, Bool.false_eq_true, if_false]
              omega
            · refine ⟨_, poll_once_read_fail st s rest e hH hlen hr he, ⟨s, hH⟩,
                ⟨_, rfl, hreq⟩, ?_⟩
              intro st1 dw s1 e1 _
              cases e1
        | data bytes =>
            cases bytes with
            | nil =>
                refine ⟨_, poll_once_read_eof st s rest hH hlen hr, ⟨s, hH⟩, ⟨_, rfl, hreq2⟩, ?_⟩
                intro st1 dw s1 e1 _
                cases e1
            | cons c cs =>
                obtain ⟨b, junk, hb1, hb2, hb3⟩ :=
                  poll_once_read_data st s (c :: cs) rest hH hlen hr (by simp)
                refine ⟨_, hb3, holds_of_mem b hb2 (by rw [hb1]; simp), ⟨_, rfl, hreq⟩, ?_⟩
                intro st1 dw s1 e hs1
                cases e
                obtain ⟨_, h01, junk1, hm1⟩ := hs1
                have hle : s1.length ≤ (s ++ (c :: cs).take (255 - s.length)).length :=
                  split_length NUL s1 _ (NUL :: junk1) junk (hm1 ▸ hb1) h01
                simp only [List.length_append, List.length_take, List.length_cons] at hle
                by_cases hfit : cs.length + 1 ≤ 255 - s.length
                · simp only [List.length_cons, hfit, ↓reduceIte, reads_size]
                  omega
                · simp only [List.length_cons, hfit, ↓reduceIte, reads_size, List.length_drop]
                  omega

theorem parse_general {σ : Type} (watcher : xscreensaver_watch_watcher_t σ)
    (st : WatchState σ) (did_work : Bool) (s : List Char) (hH : Holds st.watch.buffer s) :
    ∃ ph, poll_once_parse watcher st did_work = some ph ∧
      (∃ s', Holds ph.state.watch.buffer s') ∧
      (∃ new, ph.state.os.log = st.os.log ++ new ∧ read_requests new = []) ∧
      ∀ st1 did_work1 s1, ph = .go st1 did_work1 → Holds st1.watch.buffer s1 →
        st1.os.reads = st.os.reads ∧
        ((did_work1 = did_work ∧ s1.length = s.length) ∨
          (did_work1 = true ∧ s1.length < s.length)) := by
  by_cases hnl : '\n' ∈ s
  · obtain ⟨line, rest, hs, hline⟩ := List.eq_append_cons_of_mem hnl
    have hshort : rest.length < s.length := by
      rw [hs]
      simp only [List.length_append, List.length_cons]
      omega
    rw [hs] at hH
    cases hc : classify line with
    | none =>
        obtain ⟨b, hb, hp⟩ := poll_once_parse_other watcher st line rest did_work hH hline hc
        refine ⟨_, hp, ⟨rest, hb⟩, ⟨[], by simp [Phase.state], rfl⟩, ?_⟩
        intro st1 dw1 s1 e hs1
        cases e
        rw [holds_unique _ _ _ hs1 hb]
        exact ⟨rfl, Or.inr ⟨rfl, hshort⟩⟩
    | some v =>
        cases hok : (watcher.cb st.cookie v).1 with
        | true =>
            obtain ⟨b, hb, hp⟩ :=
              poll_once_parse_notify watcher st line rest did_work v hH hline hc hok
            refine ⟨_, hp, ⟨rest, hb⟩, ⟨[.notify v], rfl, rfl⟩, ?_⟩
            intro st1 dw1 s1 e hs1
            cases e
            rw [holds_unique _ _ _ hs1 hb]
            exact ⟨rfl, Or.inr ⟨rfl, hshort⟩⟩
        | false =>
            refine ⟨_, poll_once_parse_refused watcher st line rest did_work v hH hline hc hok,
              ⟨_, hH⟩, ⟨[.notify v], rfl, rfl⟩, ?_⟩
            intro st1 dw1 s1 e _
            cases e
  · refine ⟨_, poll_once_parse_none watcher st s did_work hH hnl, ⟨s, hH⟩,
      ⟨[], by simp [Phase.state], rfl⟩, ?_⟩
    intro st1 dw1 s1 e hs1
    cases e
    rw [holds_unique _ _ _ hs1 hH]
    exact ⟨rfl, Or.inl ⟨rfl, rfl⟩⟩

theorem step_general {σ : Type} (watcher : xscreensaver_watch_watcher_t σ)
    (st : WatchState σ) (s : List Char) (hH : Holds st.watch.buffer s) :
    ∃ r st', xscreensaver_watch_rfd_poll_once watcher st = some (r, st') ∧
      (∃ s', Holds st'.watch.buffer s' ∧ (r ≠ .ERROR → s'.length < 255)) ∧
      (∃ new, st'.os.log = st.os.log ++ new ∧
        ∀ c ∈ read_requests new, c + s.length ≤ 255) ∧
      (r = .AGAIN → poll_measure st' < poll_measure st) := by
  obtain ⟨ph1, h1, ⟨s1, hs1⟩, ⟨new1, hl1, hq1⟩, hm1⟩ := read_general st s hH
  have hμ := poll_measure_holds st s hH
  unfold xscreensaver_watch_rfd_poll_once
  rw [h1]
  cases ph1 with
  | stop st1 =>
      exact ⟨_, _, rfl, ⟨s1, hs1, fun h => absurd rfl h⟩, ⟨new1, hl1, hq1⟩,
        fun h => xscreensaver_watch_rfd_poll_once_t.noConfusion h⟩
  | go st1 dw1 =>
      simp only [Phase.state] at hs1 hl1
      have hm1' := hm1 st1 dw1 s1 rfl hs1
      obtain ⟨ph2, h2, ⟨s2, hs2⟩, ⟨new2, hl2, hq2⟩, hm2⟩ :=
        parse_general watcher st1 dw1 s1 hs1
      simp only []
      rw [h2]
      have hlog : ph2.state.os.log = st.os.log ++ (new1 ++ new2) := by
        rw [hl2, hl1, List.append_assoc]
      have hreq : ∀ c ∈ read_requests (new1 ++ new2), c + s.length ≤ 255 := by
        intro c hc
        rw [read_requests_append, hq2, List.append_nil] at hc
        exact hq1 c hc
      cases ph2 with
      | stop st2 =>
          exact ⟨_, _, rfl, ⟨s2, hs2, fun h => absurd rfl h⟩, ⟨_, hlog, hreq⟩,
            fun h => xscreensaver_watch_rfd_poll_once_t.noConfusion h⟩
      | go st2 dw2 =>
          simp only [Phase.state] at hs2 hlog
          obtain ⟨hrd, hm2'⟩ := hm2 st2 dw2 s2 rfl hs2
          simp only []
          rw [poll_once_check_holds st2 s2 dw2 hs2]
          have h255 := holds_length _ _ hs2
          by_cases hfull : s2.length = 255
          · rw [if_pos hfull]
            exact ⟨_, _, rfl, ⟨s2, hs2, fun h => absurd rfl h⟩, ⟨_, hlog, hreq⟩,
              fun h => xscreensaver_watch_rfd_poll_once_t.noConfusion h⟩
          · rw [if_neg hfull]
            refine ⟨_, _, rfl, ⟨s2, hs2, fun _ => by omega⟩, ⟨_, hlog, hreq⟩, fun hr => ?_⟩
            rw [hμ, poll_measure_holds st2 s2 hs2, hrd]
            cases dw2 with
            | false => simp at hr
            | true =>
                rcases hm2' with ⟨e1, e2⟩ | ⟨_, e2⟩
                · rw [← e1] at hm1'
                  simp only [if_true] at hm1'
                  omega
                · have : 2 * reads_size st1.os.reads + s1.length
                      ≤ 2 * reads_size st.os.reads + s.length := by
                    cases dw1 <;> simp at hm1' <;> omega
                  omega

theorem rfd_poll_loop_total {σ : Type} (watcher : xscreensaver_watch_watcher_t σ)
    (fuel : Nat) (st : WatchState σ) (hb : buffer_ok st.watch.buffer)
    (hf : poll_measure st < fuel) :
    ∃ ok st', rfd_poll_loop watcher fuel st = some (ok, st') ∧ buffer_ok st'.watch.buffer := by
  induction fuel generalizing st with
  | zero => omega
  | succ fuel ih =>
      obtain ⟨s, hs, _⟩ := buffer_ok_holds _ hb
      obtain ⟨r, st1, h1, ⟨s1, hs1, _⟩, _, hm⟩ := step_general watcher st s hs
      have hb1 := holds_buffer_ok _ _ hs1
      cases r with
      | AGAIN =>
          obtain ⟨ok, st2, h2, hb2⟩ := ih st1 hb1 (by have := hm rfl; omega)
          exact ⟨ok, st2, by simp only [rfd_poll_loop, h1]; exact h2, hb2⟩
      | WAIT => exact ⟨true, st1, by simp only [rfd_poll_loop, h1], hb1⟩
      | ERROR => exact ⟨false, st1, by simp only [rfd_poll_loop, h1], hb1⟩

theorem rfd_poll_total {σ : Type} (watcher : xscreensaver_watch_watcher_t σ)
    (st : WatchState σ) (hb : buffer_ok st.watch.buffer) :
    ∃ ok st', xscreensaver_watch_rfd_poll watcher st = some (ok, st') ∧
      buffer_ok st'.watch.buffer := by
  obtain ⟨s, hs, _⟩ := buffer_ok_holds _ hb
  have h255 := holds_length _ _ hs
  exact rfd_poll_loop_total watcher _ st hb (by
    rw [poll_measure_holds st s hs]
    simp only [sizeof_buffer]
    omega)

theorem watch_polls_total {σ : Type} (watcher : xscreensaver_watch_watcher_t σ) (n : Nat)
    (st : WatchState σ) (hb : buffer_ok st.watch.buffer) :
    ∃ ok st', watch_polls watcher n st = some (ok, st') ∧ buffer_ok st'.watch.buffer := by
  induction n generalizing st with
  | zero => exact ⟨true, st, rfl, hb⟩
  | succ n ih =>
      obtain ⟨ok1, st1, h1, hb1⟩ := rfd_poll_total watcher st hb
      cases ok1 with
      | false => exact ⟨false, st1, by simp only [watch_polls, h1], hb1⟩
      | true =>
          obtain ⟨ok, st2, h2, hb2⟩ := ih st1 hb1
          exact ⟨ok, st2, by simp only [watch_polls, h1]; exact h2, hb2⟩

theorem watch_new_spec (env : NewEnv) (p p' : poller) (watch : xscreensaver_watch)
    (h : xscreensaver_watch_new env p = some (some watch, p')) :
    ∃ raw, env.malloc = some raw ∧ watch.buffer = raw.set 0 NUL ∧ watch.pid = env.spawn ∧
      env.spawn ≠ -1 := by
  unfold xscreensaver_watch_new at h
  cases hm : env.malloc with
  | none => simp [hm] at h
  | some raw =>
      refine ⟨raw, rfl, ?_⟩
      simp only [hm] at h
      by_cases h1 : env.open_null ≥ 0
      · simp only [h1, if_true] at h
        cases hp : env.pipe2 with
        | none => simp [hp] at h
        | some fds =>
            obtain ⟨rfd, wfd⟩ := fds
            simp only [hp] at h
            by_cases h2 : env.fcntl_ok = true
            · simp only [h2, if_true] at h
              cases ha : poller_add p rfd with
              | mk ok p1 =>
                  cases ok with
                  | false => simp [ha] at h
                  | true =>
                      simp only [ha] at h
                      by_cases h3 : env.spawn = -1
                      · simp [h3] at h
                      · simp only [ne_eq, h3, not_false_eq_true, if_true, Option.some.injEq,
                          Prod.mk.injEq] at h
                        obtain ⟨hw, _⟩ := h
                        subst hw
                        exact ⟨rfl, rfl, h3⟩
            · simp [h2] at h
      · simp [h1] at h

theorem watch_new_holds (env : NewEnv) (p p' : poller) (watch : xscreensaver_watch)
    (hraw : ∀ raw, env.malloc = some raw → raw.length = sizeof_buffer)
    (h : xscreensaver_watch_new env p = some (some watch, p')) : Holds watch.buffer [] := by
  obtain ⟨raw, hm, hb, _, _⟩ := watch_new_spec env p p' watch h
  have hl := hraw raw hm
  cases raw with
  | nil => simp [sizeof_buffer] at hl
  | cons c cs =>
      rw [hb]
      exact ⟨by simpa using hl, by simp, cs, by simp⟩

theorem reachable_holds {σ : Type} (watcher : xscreensaver_watch_watcher_t σ)
    (st : WatchState σ) (h : Reachable watcher st) :
    ∃ s, Holds st.watch.buffer s ∧ s.length < 255 := by
  induction h with
  | start env p p' watch os cookie hraw hnew =>
      exact ⟨[], watch_new_holds env p p' watch hraw hnew, by simp⟩
  | step st st' r _ hstep hr ih =>
      obtain ⟨s, hs, _⟩ := ih
      obtain ⟨r1, st1, h1, ⟨s', hs', hlt⟩, _⟩ := step_general watcher st s hs
      rw [hstep] at h1
      simp only [Option.some.injEq, Prod.mk.injEq] at h1
      obtain ⟨e1, e2⟩ := h1
      subst e1 e2
      exact ⟨s', hs', hlt hr⟩
  | world st os cookie _ ih => exact ih

/-- C7: in every watcher state reachable from start through steps that did not
fail, the buffer has spare capacity, so a step in which the pipe read returns
zero bytes does attempt that read, and then it fails at once: the step returns
`ERROR` with `errno == ESRCH` after reaping the child, the callback returns
`false` in that same step, no further read is made and no notification is
invoked. -/
theorem eof_is_peer_closed {σ : Type} (watcher : xscreensaver_watch_watcher_t σ)
    (st : WatchState σ) (rest : List ReadResult) (hreach : Reachable watcher st)
    (heof : st.os.reads = .data [] :: rest) :
    ∃ n, strlen st.watch.buffer = some n ∧ 0 < sizeof_buffer - n - 1 ∧
      xscreensaver_watch_rfd_poll_once watcher st = some (.ERROR,
        { st with os := { reads := rest, errno := ESRCH
                          log := st.os.log ++ [.read st.watch.rfd (sizeof_buffer - n - 1),
                            .waitpid st.watch.pid] } }) ∧
      xscreensaver_watch_rfd_poll watcher st = some (false,
        { st with os := { reads := rest, errno := ESRCH
                          log := st.os.log ++ [.read st.watch.rfd (sizeof_buffer - n - 1),
                            .waitpid st.watch.pid] } }) := by
  obtain ⟨s, hs, hlt⟩ := reachable_holds watcher st hreach
  have hread := poll_once_read_eof st s rest hs hlt heof
  have hk : sizeof_buffer - s.length - 1 = 255 - s.length := by
    simp only [sizeof_buffer]
    omega
  have hstep : xscreensaver_watch_rfd_poll_once watcher st = some (.ERROR,
      { st with os := { reads := rest, errno := ESRCH
                        log := st.os.log ++ [.read st.watch.rfd (sizeof_buffer - s.length - 1),
                          .waitpid st.watch.pid] } }) := by
    unfold xscreensaver_watch_rfd_poll_once
    rw [hread, hk]
  refine ⟨s.length, holds_strlen _ _ hs, by omega, hstep, ?_⟩
  simp only [xscreensaver_watch_rfd_poll, rfd_poll_loop, hstep]

theorem eof_is_peer_closed_witness :
    ∃ n, strlen ((List.replicate 256 'x').set 0 NUL) = some n ∧ 0 < sizeof_buffer - n - 1 ∧
      xscreensaver_watch_rfd_poll_once (⟨fun c _ => (true, c)⟩ : xscreensaver_watch_watcher_t Unit)
        ⟨⟨1234, 4, (List.replicate 256 'x').set 0 NUL⟩, ⟨[.data []], 0, []⟩, ()⟩
        = some (.ERROR,
          ⟨⟨1234, 4, (List.replicate 256 'x').set 0 NUL⟩,
            ⟨[], ESRCH, [] ++ [.read 4 (sizeof_buffer - n - 1), .waitpid 1234]⟩, ()⟩) ∧
      xscreensaver_watch_rfd_poll (⟨fun c _ => (true, c)⟩ : xscreensaver_watch_watcher_t Unit)
        ⟨⟨1234, 4, (List.replicate 256 'x').set 0 NUL⟩, ⟨[.data []], 0, []⟩, ()⟩
        = some (false,
          ⟨⟨1234, 4, (List.replicate 256 'x').set 0 NUL⟩,
            ⟨[], ESRCH, [] ++ [.read 4 (sizeof_buffer - n - 1), .waitpid 1234]⟩, ()⟩) :=
  eof_is_peer_closed ⟨fun c _ => (true, c)⟩
    ⟨⟨1234, 4, (List.replicate 256 'x').set 0 NUL⟩, ⟨[.data []], 0, []⟩, ()⟩ []
    (Reachable.start ⟨some (List.replicate 256 'x'), 3, some (4, 5), true, 1234⟩
      poller_new ⟨[4], 1⟩ _ _ _
      (by
        intro raw h
        simp only [Option.some.injEq] at h
        rw [← h, List.length_replicate, sizeof_buffer])
      rfl)
    rfl

/-- C10: the buffer invariant of the watcher. After a successful
`xscreensaver_watch_new` the 256-byte buffer holds the empty string. From every
state whose buffer holds a NUL-terminated string, of length `n`, and for every
result of the read (any number of bytes up to the requested size, would-block,
error, end-of-file) and every callback, a step of
`xscreensaver_watch_rfd_poll_once` makes no access outside the buffer (the model
returns a result), leaves in the buffer a NUL-terminated string of at most 255
bytes, and asks `read` for at most `256 - 1 - n` bytes. -/
theorem buffer_stays_in_bounds {σ : Type} (watcher : xscreensaver_watch_watcher_t σ)
    (env : NewEnv) (p p' : poller) (watch : xscreensaver_watch) (st : WatchState σ) (n : Nat)
    (hraw : ∀ raw, env.malloc = some raw → raw.length = sizeof_buffer)
    (hnew : xscreensaver_watch_new env p = some (some watch, p'))
    (hlen : st.watch.buffer.length = sizeof_buffer) (hstr : strlen st.watch.buffer = some n) :
    (buffer_ok watch.buffer ∧ strlen watch.buffer = some 0) ∧
    ∃ r st', xscreensaver_watch_rfd_poll_once watcher st = some (r, st') ∧
      buffer_ok st'.watch.buffer ∧
      ∃ new, st'.os.log = st.os.log ++ new ∧
        ∀ c ∈ read_requests new, c ≤ sizeof_buffer - 1 - n := by
  have h0 := watch_new_holds env p p' watch hraw hnew
  refine ⟨⟨holds_buffer_ok _ _ h0, by simpa using holds_strlen _ _ h0⟩, ?_⟩
  obtain ⟨s, junk, e, hs0, hsl⟩ := strlen_some _ n hstr
  have hH : Holds st.watch.buffer s := ⟨hlen, hs0, junk, e⟩
  obtain ⟨r, st', hstep, ⟨s', hs', _⟩, ⟨new, hlog, hreq⟩, _⟩ := step_general watcher st s hH
  refine ⟨r, st', hstep, holds_buffer_ok _ _ hs', new, hlog, fun c hc => ?_⟩
  have := hreq c hc
  simp only [sizeof_buffer]
  omega

theorem buffer_stays_in_bounds_witness :
    (buffer_ok ((List.replicate 256 'x').set 0 NUL) ∧
      strlen ((List.replicate 256 'x').set 0 NUL) = some 0) ∧
    ∃ r st', xscreensaver_watch_rfd_poll_once
        (⟨fun c _ => (true, c)⟩ : xscreensaver_watch_watcher_t Unit)
        ⟨⟨1234, 4, 'a' :: 'b' :: NUL :: List.replicate 253 'x'⟩,
          ⟨[.data (List.replicate 300 NUL)], 0, []⟩, ()⟩ = some (r, st') ∧
      buffer_ok st'.watch.buffer ∧
      ∃ new, st'.os.log = [] ++ new ∧ ∀ c ∈ read_requests new, c ≤ sizeof_buffer - 1 - 2 :=
  buffer_stays_in_bounds ⟨fun c _ => (true, c)⟩
    ⟨some (List.replicate 256 'x'), 3, some (4, 5), true, 1234⟩ poller_new ⟨[4], 1⟩
    ⟨1234, 4, (List.replicate 256 'x').set 0 NUL⟩
    ⟨⟨1234, 4, 'a' :: 'b' :: NUL :: List.replicate 253 'x'⟩,
      ⟨[.data (List.replicate 300 NUL)], 0, []⟩, ()⟩ 2
    (by
      intro raw h
      simp only [Option.some.injEq] at h
      rw [← h, List.length_replicate, sizeof_buffer])
    rfl
    (by simp only [List.length_cons, List.length_replicate, sizeof_buffer])
    (by
      rw [strlen, if_neg (by decide), strlen, if_neg (by decide), strlen, if_pos rfl]
      rfl)

/-! ## Stopping the watcher -/

theorem watch_delete_signals (w : xscreensaver_watch) (os : OS) (p : poller)
    (hpid : w.pid ≥ 0) (hreg : w.rfd ∈ p.interest) :
    ∃ p', poller_remove p w.rfd = some p' ∧
      xscreensaver_watch_delete (some w) os p
        = some ({ os with log := os.log
            ++ [.kill w.pid SIGTERM, .waitpid w.pid] ++ [.close w.rfd] }, p') := by
  refine ⟨_, by rw [poller_remove, if_pos hreg], ?_⟩
  simp only [xscreensaver_watch_delete, poller_remove, hreg, if_true, hpid, Option.map_some']

set_option maxRecDepth 100000 in
/-- C9 fails on the code: the watcher is started with child 1234, the readiness
callback reads end-of-file, reaps the child with `waitpid(1234)` and returns
`false`; `xscreensaver_watch_delete` then still calls `kill(1234, SIGTERM)`,
because `watch->pid` was never reset, so the guard `watch->pid >= 0` holds for a
child that is no longer running. -/
theorem delete_signals_reaped_child :
    (xscreensaver_watch_new ⟨some (List.replicate 256 'x'), 3, some (4, 5), true, 1234⟩
        poller_new).bind (fun started =>
      (xscreensaver_watch_rfd_poll (⟨fun c _ => (true, c)⟩ : xscreensaver_watch_watcher_t Unit)
          ⟨started.1.getD ⟨-1, -1, []⟩, ⟨[.data []], 0, []⟩, ()⟩).bind (fun polled =>
        (xscreensaver_watch_delete (some polled.2.watch) polled.2.os started.2).map
          (fun stopped => (started.1.map (fun w => w.pid), polled.1, stopped.1.log))))
      = some (some 1234, false,
          [.read 4 255, .waitpid 1234, .kill 1234 SIGTERM, .waitpid 1234, .close 4]) := by
  decide

/-! ## The wiring of `main` and the reactor -/

theorem poller_run_success_count {σ : Type} (evs : List (epoll_wait_t σ)) (s : RunState σ)
    (h : (poller_run evs s).outcome = .returned true) :
    (poller_run evs s).final.poller.count = 0 := by
  induction evs generalizing s with
  | nil =>
      by_cases hc : s.poller.count = 0
      · simp [poller_run, hc]
      · simp [poller_run, hc] at h
  | cons ev evs ih =>
      by_cases hc : s.poller.count = 0
      · simp [poller_run, hc]
      · cases ev with
        | error e => simp [poller_run, hc] at h
        | ready p =>
            cases hcb : p.cb s with
            | none => simp [poller_run, hc, hcb] at h
            | some r =>
                obtain ⟨ok, s1⟩ := r
                cases ok with
                | false => simp [poller_run, hc, hcb] at h
                | true =>
                    simp only [poller_run, hc, ne_eq, not_false_eq_true, if_true, hcb] at h ⊢
                    exact ih s1 h

theorem poller_run_keeps_poller {σ : Type} (evs : List (epoll_wait_t σ)) (s : RunState σ)
    (h : ∀ ev ∈ evs, ∀ p, ev = .ready p →
      ∀ s1 ok s2, p.cb s1 = some (ok, s2) → s2.poller = s1.poller) :
    (poller_run evs s).final.poller = s.poller := by
  induction evs generalizing s with
  | nil => by_cases hc : s.poller.count = 0 <;> simp [poller_run, hc]
  | cons ev evs ih =>
      by_cases hc : s.poller.count = 0
      · simp [poller_run, hc]
      · cases ev with
        | error e => simp [poller_run, hc]
        | ready p =>
            cases hcb : p.cb s with
            | none => simp [poller_run, hc, hcb]
            | some r =>
                obtain ⟨ok, s1⟩ := r
                have hp := h (.ready p) (by simp) p rfl s ok s1 hcb
                cases ok with
                | false =>
                    simp only [poller_run, hc, ne_eq, not_false_eq_true, if_true, hcb]
                    exact hp
                | true =>
                    simp only [poller_run, hc, ne_eq, not_false_eq_true, if_true, hcb]
                    rw [ih s1 (fun ev hev => h ev (List.mem_cons_of_mem _ hev)), hp]

theorem sock_pollable_keeps_poller (s1 s2 : RunState MainState) (ok : Bool)
    (h : sock_pollable.cb s1 = some (ok, s2)) : s2.poller = s1.poller := by
  simp only [sock_pollable, Option.some.injEq, Prod.mk.injEq] at h
  rw [← h.2]

theorem rfd_pollable_keeps_poller (s1 s2 : RunState MainState) (ok : Bool)
    (h : rfd_pollable.cb s1 = some (ok, s2)) : s2.poller = s1.poller := by
  simp only [rfd_pollable, Option.map_eq_some', Prod.mk.injEq] at h
  obtain ⟨r, _, _, h2⟩ := h
  rw [← h2]

theorem main_events_keep_poller (events : List MainEvent) (s : RunState MainState) :
    (poller_run (events.map main_event) s).final.poller = s.poller := by
  apply poller_run_keeps_poller
  intro ev hev p hp s1 ok s2 hcb
  obtain ⟨e, _, he⟩ := List.mem_map.mp hev
  cases e with
  | sock =>
      rw [← he, main_event] at hp
      cases hp
      exact sock_pollable_keeps_poller s1 s2 ok hcb
  | pipe =>
      rw [← he, main_event] at hp
      cases hp
      exact rfd_pollable_keeps_poller s1 s2 ok hcb
  | error n =>
      rw [← he, main_event] at hp
      cases hp

theorem poller_add_ok (p p' : poller) (fd : Int) (h : poller_add p fd = (true, p')) :
    p' = { interest := fd :: p.interest, count := (p.count + 1) % UINT_MOD } ∧
      fd ∉ p.interest := by
  unfold poller_add at h
  by_cases hc : 0 ≤ fd ∧ fd ∉ p.interest
  · rw [if_pos hc] at h
    exact ⟨(Prod.mk.inj h).2.symm, hc.2⟩
  · rw [if_neg hc] at h
    exact absurd (Prod.mk.inj h).1 (by decide)

theorem fah_control_new_on_ok (env : FahEnv) (p p1 : poller) (fah : fah_control)
    (h : fah_control_new_on env p = (some fah, p1)) :
    poller_add p env.socket = (true, p1) ∧ fah = fah_control_new env.sock := by
  unfold fah_control_new_on at h
  by_cases h1 : env.malloc_ok = true
  · by_cases h2 : env.socket ≥ 0
    · by_cases h3 : env.connect_ok = true
      · simp only [h1, h2, h3, if_true] at h
        cases ha : poller_add p env.socket with
        | mk ok q =>
            rw [ha] at h
            cases ok with
            | false => simp at h
            | true =>
                simp only [Prod.mk.injEq, Option.some.injEq] at h
                exact ⟨by rw [h.2], h.1.symm⟩
      · simp [h1, h2, h3] at h
    · simp [h1, h2] at h
  · simp [h1] at h

theorem watch_new_poller (env : NewEnv) (p p' : poller) (watch : xscreensaver_watch)
    (h : xscreensaver_watch_new env p = some (some watch, p')) :
    poller_add p watch.rfd = (true, p') := by
  unfold xscreensaver_watch_new at h
  cases hm : env.malloc with
  | none => simp [hm] at h
  | some raw =>
      simp only [hm] at h
      by_cases h1 : env.open_null ≥ 0
      · simp only [h1, if_true] at h
        cases hp : env.pipe2 with
        | none => simp [hp] at h
        | some fds =>
            obtain ⟨rfd, wfd⟩ := fds
            simp only [hp] at h
            by_cases h2 : env.fcntl_ok = true
            · simp only [h2, if_true] at h
              cases ha : poller_add p rfd with
              | mk ok p1 =>
                  cases ok with
                  | false => simp [ha] at h
                  | true =>
                      simp only [ha] at h
                      by_cases h3 : env.spawn = -1
                      · simp [h3] at h
                      · simp only [ne_eq, h3, not_false_eq_true, if_true, Option.some.injEq,
                          Prod.mk.injEq] at h
                        obtain ⟨hw, hp'⟩ := h
                        subst hw hp'
                        exact ha
            · simp [h2] at h
      · simp [h1] at h

theorem main_setup_poller (env : MainEnv) (s : RunState MainState)
    (h : main_setup env = some (some s)) :
    s.poller = { interest := [s.world.watch.watch.rfd, env.fah.socket], count := 2 } := by
  unfold main_setup at h
  by_cases h0 : env.poller_ok = true
  · simp only [h0, if_true] at h
    cases hf : fah_control_new_on env.fah poller_new with
    | mk ofah p1 =>
        rw [hf] at h
        cases ofah with
        | none => simp at h
        | some fah =>
            obtain ⟨ha1, _⟩ := fah_control_new_on_ok env.fah poller_new p1 fah hf
            obtain ⟨hp1, _⟩ := poller_add_ok _ _ _ ha1
            simp only [] at h
            cases hs : add_slots fah env.os.errno env.args with
            | mk ok rest =>
                obtain ⟨fah1, errno1⟩ := rest
                rw [hs] at h
                cases ok with
                | false =>
                    simp only [Option.map_eq_some'] at h
                    obtain ⟨_, _, h2⟩ := h
                    cases h2
                | true =>
                    simp only [] at h
                    cases hw : xscreensaver_watch_new env.watch p1 with
                    | none => simp [hw] at h
                    | some r =>
                        obtain ⟨ow, p2⟩ := r
                        rw [hw] at h
                        cases ow with
                        | none =>
                            simp only [Option.map_eq_some'] at h
                            obtain ⟨_, _, h2⟩ := h
                            cases h2
                        | some watch =>
                            simp only [Option.some.injEq] at h
                            obtain ⟨hp2, _⟩ := poller_add_ok _ _ _
                              (watch_new_poller env.watch p1 p2 watch hw)
                            rw [← h]
                            simp only []
                            rw [hp2, hp1]
                            simp [poller_new, UINT_MOD]
  · simp [h0] at h

/-- C11: in the wiring of `main`, the state in which `poller_run` is called has
exactly the control socket and the watcher pipe registered, with count 2;
neither `fah_control_poll` nor `xscreensaver_watch_rfd_poll` changes the poller,
so after every prefix of the events the poller is unchanged and the count is
still 2; `poller_run` therefore never returns `true`, and whenever `main`
returns, its exit status is `EXIT_FAILURE`. -/
theorem main_never_exits_with_success (env : MainEnv) :
    (∀ s, main_setup env = some (some s) →
      s.poller = { interest := [s.world.watch.watch.rfd, env.fah.socket], count := 2 } ∧
      (∀ k, (poller_run ((env.events.take k).map main_event) s).final.poller.count = 2) ∧
      (poller_run (env.events.map main_event) s).outcome ≠ .returned true) ∧
    (∀ status, main env = some status → status = EXIT_FAILURE) := by
  have hrun : ∀ s, main_setup env = some (some s) → ∀ events : List MainEvent,
      (poller_run (events.map main_event) s).final.poller.count = 2 ∧
      (poller_run (events.map main_event) s).outcome ≠ .returned true := by
    intro s hs events
    have hp := main_setup_poller env s hs
    have hk := main_events_keep_poller events s
    have hc : (poller_run (events.map main_event) s).final.poller.count = 2 := by
      rw [hk, hp]
    refine ⟨hc, fun ht => ?_⟩
    have := poller_run_success_count _ s ht
    omega
  refine ⟨fun s hs => ⟨main_setup_poller env s hs, fun k => (hrun s hs _).1,
    (hrun s hs _).2⟩, ?_⟩
  intro status hm
  unfold main at hm
  cases hs : main_setup env with
  | none => simp [hs] at hm
  | some o =>
      cases o with
      | none =>
          simp only [hs, Option.some.injEq] at hm
          exact hm.symm
      | some s =>
          simp only [hs] at hm
          have hne := (hrun s hs env.events).2
          cases ho : (poller_run (env.events.map main_event) s).outcome with
          | blocked => simp [ho] at hm
          | aborted => simp [ho] at hm
          | returned ok =>
              cases ok with
              | true => exact absurd ho hne
              | false =>
                  simp only [ho] at hm
                  cases hd : xscreensaver_watch_delete
                      (some (poller_run (env.events.map main_event) s).final.world.watch.watch)
                      (poller_run (env.events.map main_event) s).final.world.watch.os
                      (poller_run (env.events.map main_event) s).final.poller with
                  | none => simp [hd] at hm
                  | some r =>
                      simp only [hd, Option.map_eq_some'] at hm
                      obtain ⟨_, _, h2⟩ := hm
                      simpa using h2.symm

set_option maxRecDepth 100000 in
theorem main_never_exits_with_success_witness :
    main_setup example_run = some (some example_state) ∧
    main example_run = some EXIT_FAILURE ∧
    (example_state.poller
        = { interest := [example_state.world.watch.watch.rfd, example_run.fah.socket],
            count := 2 } ∧
      (∀ k, (poller_run ((example_run.events.take k).map main_event)
        example_state).final.poller.count = 2) ∧
      (poller_run (example_run.events.map main_event) example_state).outcome
        ≠ .returned true) ∧
    EXIT_FAILURE = EXIT_FAILURE :=
  ⟨rfl, by decide, (main_never_exits_with_success example_run).1 example_state rfl,
    (main_never_exits_with_success example_run).2 EXIT_FAILURE (by decide)⟩

/-! ## The reactor, callback by callback -/

theorem poller_run_after {σ : Type} (pre : List (poller_pollable_t σ))
    (rest : List (epoll_wait_t σ)) (s s' : RunState σ) (h : all_succeed pre s s') :
    poller_run (pre.map epoll_wait_t.ready ++ rest) s
      = ⟨(poller_run rest s').outcome, (poller_run rest s').final,
          pre.map (fun p => (p, some true)) ++ (poller_run rest s').invoked⟩ := by
  induction pre generalizing s with
  | nil =>
      simp only [all_succeed] at h
      subst h
      simp
  | cons p pre ih =>
      obtain ⟨hc, s1, hcb, h1⟩ := h
      have e := ih s1 h1
      simp only [List.map_cons, List.cons_append, poller_run, hc, ne_eq, not_false_eq_true,
        if_true, hcb]
      have e' : poller_run ((List.map epoll_wait_t.ready pre).append rest) s1
          = poller_run (List.map epoll_wait_t.ready pre ++ rest) s1 := rfl
      rw [e', e]

theorem dispatch_cases_exhaustive {σ : Type} (evs : List (epoll_wait_t σ)) (s : RunState σ) :
    ∃ pre rest s', evs = pre.map epoll_wait_t.ready ++ rest ∧ all_succeed pre s s' ∧
      (s'.poller.count = 0 ∨ rest = [] ∨ (∃ e rest', rest = .error e :: rest') ∨
        ∃ p rest', rest = .ready p :: rest' ∧
          (p.cb s' = none ∨ ∃ s'', p.cb s' = some (false, s''))) := by
  induction evs generalizing s with
  | nil => exact ⟨[], [], s, rfl, rfl, Or.inr (Or.inl rfl)⟩
  | cons ev evs ih =>
      by_cases hc : s.poller.count = 0
      · exact ⟨[], ev :: evs, s, rfl, rfl, Or.inl hc⟩
      · cases ev with
        | error e => exact ⟨[], _, s, rfl, rfl, Or.inr (Or.inr (Or.inl ⟨e, evs, rfl⟩))⟩
        | ready p =>
            cases hcb : p.cb s with
            | none =>
                exact ⟨[], _, s, rfl, rfl, Or.inr (Or.inr (Or.inr ⟨p, evs, rfl, Or.inl hcb⟩))⟩
            | some r =>
                obtain ⟨ok, s1⟩ := r
                cases ok with
                | false =>
                    exact ⟨[], _, s, rfl, rfl,
                      Or.inr (Or.inr (Or.inr ⟨p, evs, rfl, Or.inr ⟨s1, hcb⟩⟩))⟩
                | true =>
                    obtain ⟨pre, rest, s', he, hs, hcase⟩ := ih s1
                    exact ⟨p :: pre, rest, s', by rw [he]; rfl, ⟨hc, s1, hcb, hs⟩, hcase⟩

/-- C8: `poller_run` invokes the callbacks one at a time in the order of the
events, each in the state the one before it left. As long as clients are
registered and the callbacks return `true`, the next event is dispatched. After
callbacks `pre` that all succeeded and left state `s'`: if no client is
registered, `poller_run` returns `true`; if clients are registered and
`epoll_wait` fails, it returns `false` at once; if the callback of the next
event returns `false`, `poller_run` returns `false` at once, the callbacks
invoked are exactly `pre` and the failing one, and no later event is dispatched,
whatever follows; if no event arrives it stays blocked; if the callback does not
return, neither does `poller_run`. It returns `true` only when the count of
registered clients is zero. -/
theorem poller_run_stops_at_first_failure {σ : Type} (pre : List (poller_pollable_t σ))
    (rest : List (epoll_wait_t σ)) (s s' : RunState σ) (h : all_succeed pre s s') :
    (s'.poller.count = 0 →
      poller_run (pre.map epoll_wait_t.ready ++ rest) s
        = ⟨.returned true, s', pre.map (fun p => (p, some true))⟩) ∧
    (s'.poller.count ≠ 0 →
      poller_run (pre.map epoll_wait_t.ready) s
        = ⟨.blocked, s', pre.map (fun p => (p, some true))⟩) ∧
    (s'.poller.count ≠ 0 → ∀ e,
      poller_run (pre.map epoll_wait_t.ready ++ .error e :: rest) s
        = ⟨.returned false, s', pre.map (fun p => (p, some true))⟩) ∧
    (s'.poller.count ≠ 0 → ∀ p s'', p.cb s' = some (false, s'') →
      poller_run (pre.map epoll_wait_t.ready ++ .ready p :: rest) s
        = ⟨.returned false, s'', pre.map (fun p => (p, some true)) ++ [(p, some false)]⟩) ∧
    (s'.poller.count ≠ 0 → ∀ p, p.cb s' = none →
      poller_run (pre.map epoll_wait_t.ready ++ .ready p :: rest) s
        = ⟨.aborted, s', pre.map (fun p => (p, some true)) ++ [(p, none)]⟩) ∧
    ((poller_run (pre.map epoll_wait_t.ready ++ rest) s).outcome = .returned true →
      (poller_run (pre.map epoll_wait_t.ready ++ rest) s).final.poller.count = 0) := by
  refine ⟨fun hc => ?_, fun hc => ?_, fun hc e => ?_, fun hc p s'' hcb => ?_,
    fun hc p hcb => ?_, poller_run_success_count _ s⟩
  · rw [poller_run_after pre rest s s' h]
    cases rest with
    | nil => simp [poller_run, hc]
    | cons ev rest => simp [poller_run, hc]
  · have := poller_run_after pre [] s s' h
    rw [List.append_nil] at this
    rw [this]
    simp [poller_run, hc]
  · rw [poller_run_after pre _ s s' h]
    simp [poller_run, hc]
  · rw [poller_run_after pre _ s s' h]
    simp [poller_run, hc, hcb]
  · rw [poller_run_after pre _ s s' h]
    simp [poller_run, hc, hcb]

theorem poller_run_stops_at_first_failure_witness :
    all_succeed [counting_pollable, counting_pollable] ⟨⟨[3], 1⟩, 0⟩ ⟨⟨[3], 1⟩, 2⟩ ∧
    poller_run [.ready counting_pollable, .ready counting_pollable, .ready failing_pollable,
        .ready counting_pollable, .error 4] ⟨⟨[3], 1⟩, 0⟩
      = ⟨.returned false, ⟨⟨[3], 1⟩, 2⟩,
          [(counting_pollable, some true), (counting_pollable, some true),
            (failing_pollable, some false)]⟩ :=
  ⟨⟨by decide, _, rfl, by decide, _, rfl, rfl⟩,
    (poller_run_stops_at_first_failure [counting_pollable, counting_pollable]
      [.ready counting_pollable, .error 4] ⟨⟨[3], 1⟩, 0⟩ ⟨⟨[3], 1⟩, 2⟩
      ⟨by decide, _, rfl, by decide, _, rfl, rfl⟩).2.2.2.1 (by decide) failing_pollable
      ⟨⟨[3], 1⟩, 2⟩ rfl⟩

end XScreenFold
